import Mathlib

/-!
Shallow embedding of the BrokerFlow transactional core: the `agreements`,
`timeline_events`, `audit_logs`, `outbox`, `idempotency`, `disputes`,
`invoices`, `referral_matches`, `referral_requests`, `users` and
`pii_contacts` tables together with the DDL constraints and triggers
(partial unique index `agreements_one_active_per_referral`, CHECK
`chk_agreement_effective_at_pair`, the timeline sequence / temporal /
writer-guard / immutability triggers, `disputes_resolve_guard`) and the
service-layer transactions (`CreateFromMatch`, `MatchService.UpdateState`,
`StatusService.Transition`, `HandleEsignCompletionWebhook`,
`get_pii_contact`, `Repository.Resolve`, the stress `Creator` insert and
the CRUD draft `Create`).

Timestamps are `Nat` (the value of `get_tx_timestamp()` for the enclosing
transaction), identifiers are `Nat` (UUIDs are only compared for
equality).  Each operation is a whole transaction: it returns
`Except DBErr ...`; an `.error` result models an aborted transaction, so
the database state is unchanged on failure.
-/

namespace BrokerFlow

/-- `agreement_status` enum from the DDL. -/
inductive AgStatus
  | draft
  | pending_signature
  | effective
  | success
  | void
  | disputed
  | closed
  deriving DecidableEq, Repr

/-- `event_type` values used by the modeled writers. -/
inductive EvType
  | OFFER_MADE
  | ESIGN_COMPLETED
  | DEAL_CLOSED
  | AGREEMENT_CREATED
  | AGREEMENT_STATUS_CHANGED
  deriving DecidableEq, Repr

/-- `referral_match_state` enum. -/
inductive MState
  | invited
  | accepted
  | declined
  deriving DecidableEq, Repr

/-- Dispute status (`under_review` / `resolved`). -/
inductive DStatus
  | under_review
  | resolved
  deriving DecidableEq, Repr

/-- A row of `agreements` (the columns the modeled code touches). -/
structure Agreement where
  id : Nat
  referralId : Nat
  fromBrokerId : Option Nat
  toBrokerId : Option Nat
  status : AgStatus
  effectiveAt : Option Nat
  piiFirstAccessTime : Option Nat
  eventSeq : Nat
  feeRate : Nat
  protectDays : Nat
  statusUpdatedAt : Nat
  statusUpdatedBy : Option Nat
  updatedAt : Nat
  deriving DecidableEq, Repr

/-- A row of `timeline_events`. -/
structure TimelineEvent where
  agreementId : Nat
  seq : Nat
  type : EvType
  actorId : Option Nat
  actorBrokerId : Option Nat
  ts : Nat
  deriving DecidableEq, Repr

/-- A row of `audit_logs`. -/
structure AuditLog where
  agreementId : Nat
  actorId : Option Nat
  action : String
  ts : Nat
  deriving DecidableEq, Repr

/-- A row of `outbox` (only the topic matters for the claims). -/
structure OutboxMsg where
  topic : String
  deriving DecidableEq, Repr

/-- A row of `disputes`. -/
structure Dispute where
  id : Nat
  agreementId : Nat
  status : DStatus
  resolvedAt : Option Nat
  updatedAt : Nat
  deriving DecidableEq, Repr

/-- A row of `invoices`. -/
structure Invoice where
  id : Nat
  agreementId : Nat
  status : String
  isInvalidated : Bool
  deriving DecidableEq, Repr

/-- A row of `referral_matches`. -/
structure MatchRow where
  id : Nat
  requestId : Nat
  candidateUserId : Nat
  state : MState
  deriving DecidableEq, Repr

/-- A row of `referral_requests` (the columns the core touches). -/
structure RequestRow where
  id : Nat
  createdByUserId : Nat
  status : String
  deriving DecidableEq, Repr

/-- A row of `users` (id and broker linkage). -/
structure UserRow where
  id : Nat
  brokerId : Option Nat
  deriving DecidableEq, Repr

/-- A row of `pii_contacts` (DDL column order). -/
structure PiiContactRow where
  agreementId : Nat
  clientName : String
  clientEmail : String
  clientPhone : String
  deriving DecidableEq, Repr

/-- The projection returned by `get_pii_contact`:
`TABLE(client_name, client_phone, client_email)` and nothing else. -/
structure Contact where
  clientName : String
  clientPhone : String
  clientEmail : String
  deriving DecidableEq, Repr

/-- The `agreement.Record` value returned by the Go repository. -/
structure AgreementRecord where
  id : Nat
  requestId : Nat
  referrerBrokerId : Nat
  refereeBrokerId : Nat
  feeRate : Nat
  protectDays : Nat
  effectiveAt : Option Nat
  deriving DecidableEq, Repr

/-- The whole database state.  `nextId` models the id generator. -/
structure DB where
  agreements : List Agreement
  events : List TimelineEvent
  audits : List AuditLog
  outbox : List OutboxMsg
  idempotency : List String
  disputes : List Dispute
  invoices : List Invoice
  matchRows : List MatchRow
  requests : List RequestRow
  users : List UserRow
  piiContacts : List PiiContactRow
  nextId : Nat
  deriving DecidableEq, Repr

/-- Error kinds (SQLSTATEs and Go error values folded together). -/
inductive DBErr
  | notFound
  | forbidden
  | uniqueViolation
  | checkViolation
  | invalidTransition
  | brokerMissing
  | brokerContextRequired
  | unauthorizedTimeline
  | temporalViolation
  | badStatus
  | missingKey
  | invalidMatchTransition
  | matchRequestMismatch
  | matchCandidateMismatch
  | matchNotAccepted
  | ownerBrokerMissing
  | candidateBrokerMissing
  | timelineImmutable
  | invalidActorCast
  | fkViolation
  deriving DecidableEq, Repr

/-- `status IN ('pending_signature','effective')`: the predicate of the
partial unique index `agreements_one_active_per_referral`. -/
def isActive (a : Agreement) : Bool :=
  a.status == AgStatus.pending_signature || a.status == AgStatus.effective

/-- `status IN ('effective','success','disputed')`, the states that demand
a non-null `effective_at` in `chk_agreement_effective_at_pair` and that
the temporal trigger requires for gated events. -/
def statusRequiresEffectiveAt : AgStatus → Bool
  | AgStatus.effective => true
  | AgStatus.success => true
  | AgStatus.disputed => true
  | _ => false

/-- CHECK `chk_agreement_effective_at_pair` on one row. -/
def chkEffectiveAtPair (a : Agreement) : Bool :=
  if statusRequiresEffectiveAt a.status then a.effectiveAt.isSome else a.effectiveAt.isNone

/-- The head row does not collide with any later row in the partial
unique index. -/
def noActiveConflict (a : Agreement) (rest : List Agreement) : Bool :=
  !(isActive a) || rest.all (fun b => !(isActive b && b.referralId == a.referralId))

/-- Uniqueness of the partial index `agreements_one_active_per_referral`:
no two rows of the table are both active for the same referral. -/
def uniqueActiveB : List Agreement → Bool
  | [] => true
  | a :: rest => noActiveConflict a rest && uniqueActiveB rest

/-- All table constraints on `agreements`: the per-row CHECK and the
partial unique index, as verified by the storage layer on every write. -/
def agreementsChecksB (l : List Agreement) : Bool :=
  l.all chkEffectiveAtPair && uniqueActiveB l

/-- `SELECT ... FROM agreements WHERE id = x` (ids are the primary key). -/
def findAgreement : List Agreement → Nat → Option Agreement
  | [], _ => none
  | a :: l, i => if a.id == i then some a else findAgreement l i

/-- `UPDATE agreements SET ... WHERE p` as one constraint-checked
statement: the rows matching `p` are rewritten by `f` and the CHECK and
partial-unique-index constraints are re-verified; a violation aborts the
transaction. -/
def mapWhere (p : Agreement → Bool) (f : Agreement → Agreement) (l : List Agreement) :
    List Agreement :=
  l.map (fun x => if p x then f x else x)

def updateAgreementsWhere (db : DB) (p : Agreement → Bool) (f : Agreement → Agreement) :
    Except DBErr DB :=
  let l := mapWhere p f db.agreements
  if (l.all chkEffectiveAtPair) = false then Except.error DBErr.checkViolation
  else if uniqueActiveB l = false then Except.error DBErr.uniqueViolation
  else Except.ok { db with agreements := l }

/-- `INSERT INTO agreements ...`: the new row takes the generated id,
and the CHECK and partial-unique-index constraints are verified. -/
def insertAgreementChecked (db : DB) (f : Nat → Agreement) :
    Except DBErr (Agreement × DB) :=
  let a := f db.nextId
  let l := db.agreements ++ [a]
  if (l.all chkEffectiveAtPair) = false then Except.error DBErr.checkViolation
  else if uniqueActiveB l = false then Except.error DBErr.uniqueViolation
  else Except.ok (a, { db with agreements := l, nextId := db.nextId + 1 })

/-- Event types gated by `check_temporal_integrity`. -/
def gatedType : EvType → Bool
  | EvType.OFFER_MADE => true
  | EvType.ESIGN_COMPLETED => true
  | EvType.DEAL_CLOSED => true
  | _ => false

/-- The committed `timeline_events` row of a triggered insert: `seq` from
the counter, `actor_broker_id` stamped from the session broker, `ts`
defaulted to `get_tx_timestamp()`. -/
def mkEvent (agId s : Nat) (ty : EvType) (actor : Option Nat) (b : Nat) (now : Nat) :
    TimelineEvent :=
  { agreementId := agId, seq := s, type := ty, actorId := actor,
    actorBrokerId := some b, ts := now }

/-- The `event_seq = event_seq + 1` bump written by `next_event_seq` on
the agreement row. -/
def bump (x : Agreement) : Agreement := { x with eventSeq := x.eventSeq + 1 }

/-- The row rewrite of `ExecuteEsignCompletionTx`:
`SET status = 'effective', effective_at = COALESCE(effective_at, get_tx_timestamp())`. -/
def effectiveF (now : Nat) (x : Agreement) : Agreement :=
  { x with status := AgStatus.effective, effectiveAt := some (x.effectiveAt.getD now) }

/-- The row rewrite of `StatusService.Transition`:
`SET status = $1, status_updated_at = tx_now(), status_updated_by = $2,
updated_at = tx_now()`. -/
def statusF (next : AgStatus) (actor : Option Nat) (now : Nat) (x : Agreement) :
    Agreement :=
  { x with status := next, statusUpdatedAt := now, statusUpdatedBy := actor,
           updatedAt := now }

/-- The row rewrite of `get_pii_contact`:
`SET pii_first_access_time = get_tx_timestamp()`. -/
def piiTouchF (now : Nat) (x : Agreement) : Agreement :=
  { x with piiFirstAccessTime := some now }

/-- The row rewrite of `disputes_resolve_guard`: `SET status = 'disputed'`. -/
def disputedF (x : Agreement) : Agreement := { x with status := AgStatus.disputed }

/-- The FK `timeline_events.actor_id UUID REFERENCES users(id)`: a
non-NULL `actor_id` must name an existing user (NULL passes). -/
def actorFKOk (db : DB) (actor : Option Nat) : Bool :=
  match actor with
  | none => true
  | some u => db.users.any (fun x => x.id == u)

/-- `INSERT INTO timeline_events (agreement_id, type, payload, actor_id)`
with the three BEFORE INSERT triggers, in firing (name) order:
`timeline_seq` assigns `NEW.seq := next_event_seq(agreement_id)` (the
`event_seq = event_seq + 1 RETURNING` counter on the agreement row, since
callers always leave `seq` NULL), `trg_check_temporal_integrity` checks
gated types against the locked agreement, and `trg_guard_timeline_writer`
requires the session `app.broker_id` to be a party of the agreement and
stamps `actor_broker_id`.  Row insertion then verifies the
`actor_id REFERENCES users(id)` FK and the `(agreement_id, seq)`
uniqueness constraint.  Returns the assigned `seq`. -/
def insertTimelineEventChecked (db : DB) (agId : Nat) (ty : EvType)
    (actor : Option Nat) (brokerCtx : Option Nat) (now : Nat) :
    Except DBErr (Nat × DB) :=
  match findAgreement db.agreements agId with
  | none => Except.error DBErr.notFound
  | some a =>
    if gatedType ty && !(statusRequiresEffectiveAt a.status) then
      Except.error DBErr.temporalViolation
    else if gatedType ty && !(a.effectiveAt.any (fun t => decide (t ≤ now))) then
      Except.error DBErr.temporalViolation
    else
      match brokerCtx with
      | none => Except.error DBErr.brokerContextRequired
      | some b =>
        if !(a.fromBrokerId == some b || a.toBrokerId == some b) then
          Except.error DBErr.unauthorizedTimeline
        else if actorFKOk db actor = false then
          Except.error DBErr.fkViolation
        else if db.events.any (fun e => e.agreementId == agId && e.seq == a.eventSeq + 1) then
          Except.error DBErr.uniqueViolation
        else if ((mapWhere (fun x => x.id == agId) bump db.agreements).all
            chkEffectiveAtPair) = false then
          Except.error DBErr.checkViolation
        else if uniqueActiveB (mapWhere (fun x => x.id == agId) bump db.agreements) = false then
          Except.error DBErr.uniqueViolation
        else
          Except.ok (a.eventSeq + 1,
            { db with agreements := mapWhere (fun x => x.id == agId) bump db.agreements,
                      events := db.events ++ [mkEvent agId (a.eventSeq + 1) ty actor b now] })

/-- `INSERT INTO outbox (topic, payload) VALUES ...`. -/
def enqueueOutbox (db : DB) (t : String) : DB :=
  { db with outbox := db.outbox ++ [{ topic := t }] }

/-- UPDATE on `timeline_events`: rejected unconditionally by the
`prevent_event_mutation` trigger (`timeline_events are immutable`). -/
def updateTimelineEvent (_db : DB) (_i : Nat) (_f : TimelineEvent → TimelineEvent) :
    Except DBErr DB :=
  Except.error DBErr.timelineImmutable

/-- DELETE on `timeline_events`: rejected unconditionally by the
`prevent_event_mutation` trigger. -/
def deleteTimelineEvent (_db : DB) (_i : Nat) : Except DBErr DB :=
  Except.error DBErr.timelineImmutable

/-- `setTimelineBroker`: the session `app.broker_id` defaults to the
from-broker and is replaced by the actor's broker when that broker is a
party to the agreement. -/
def lookupUserBroker (db : DB) (uid : Nat) : Option Nat :=
  match db.users.find? (fun u => u.id == uid) with
  | some u => u.brokerId
  | none => none

def timelineBrokerFor (db : DB) (fb tb : Nat) (actor : Option Nat) : Nat :=
  match actor with
  | some uid =>
    match lookupUserBroker db uid with
    | some ab => if ab == fb || ab == tb then ab else fb
    | none => fb
  | none => fb

/-- `agreement_validate_transition(prev, next)` from the DDL, verbatim:
note the leading `IF prev = next THEN RETURN TRUE`. -/
def agreement_validate_transition (prev next : AgStatus) : Bool :=
  if prev == next then true
  else if prev == AgStatus.draft &&
      (next == AgStatus.pending_signature || next == AgStatus.void) then true
  else if prev == AgStatus.pending_signature &&
      (next == AgStatus.effective || next == AgStatus.void) then true
  else if prev == AgStatus.effective &&
      (next == AgStatus.success || next == AgStatus.disputed ||
       next == AgStatus.void || next == AgStatus.closed) then true
  else if prev == AgStatus.disputed &&
      (next == AgStatus.void || next == AgStatus.closed) then true
  else if prev == AgStatus.success && next == AgStatus.closed then true
  else if prev == AgStatus.void && next == AgStatus.closed then true
  else false

/-- `StatusService.Transition`: lock the agreement row, require broker
linkage, ask storage to validate the transition, UPDATE `status`,
`status_updated_at`, `status_updated_by`, `updated_at`, append an
`AGREEMENT_STATUS_CHANGED` event and enqueue `agreement.status_changed`,
all in one transaction.  The UPDATE always executes
`status_updated_by = $2::uuid` with the raw `ActorID`, so an empty actor
(modelled `none`) aborts the transaction on the uuid cast before any row
is written. -/
def statusTransition (db : DB) (agId : Nat) (actor : Option Nat)
    (next : AgStatus) (now : Nat) : Except DBErr DB :=
  match findAgreement db.agreements agId with
  | none => Except.error DBErr.notFound
  | some a =>
    match a.fromBrokerId, a.toBrokerId with
    | some fb, some tb =>
      if agreement_validate_transition a.status next = false then
        Except.error DBErr.invalidTransition
      else
        match actor with
        | none => Except.error DBErr.invalidActorCast
        | some _ =>
          match updateAgreementsWhere db (fun x => x.id == agId)
              (statusF next actor now) with
          | Except.error e => Except.error e
          | Except.ok db1 =>
            match insertTimelineEventChecked db1 agId EvType.AGREEMENT_STATUS_CHANGED actor
                (some (timelineBrokerFor db1 fb tb actor)) now with
            | Except.error e => Except.error e
            | Except.ok (_, db2) => Except.ok (enqueueOutbox db2 "agreement.status_changed")
    | _, _ => Except.error DBErr.brokerMissing

/-- `Repository.markAgreementEffective`:
`UPDATE agreements SET status = 'effective',
 effective_at = COALESCE(effective_at, get_tx_timestamp()) WHERE id = $1
 RETURNING effective_at, from_broker_id, to_broker_id`,
failing NotFound when no row matches and requiring broker linkage. -/
def markAgreementEffective (db : DB) (agId : Nat) (now : Nat) :
    Except DBErr (Nat × Nat × Nat × DB) :=
  match findAgreement db.agreements agId with
  | none => Except.error DBErr.notFound
  | some a =>
    match updateAgreementsWhere db (fun x => x.id == agId)
        (effectiveF now) with
    | Except.error e => Except.error e
    | Except.ok db1 =>
      match a.fromBrokerId, a.toBrokerId with
      | some fb, some tb => Except.ok (a.effectiveAt.getD now, fb, tb, db1)
      | _, _ => Except.error DBErr.brokerMissing

/-- `Service.HandleEsignCompletionWebhook` plus
`Repository.InsertIdempotencyKey` / `ExecuteEsignCompletionTx`: reserve
the idempotency key (a duplicate key commits nothing and returns
success), mark the agreement effective, append `ESIGN_COMPLETED`, and
enqueue `agreement.effective` (or the caller-supplied topic). -/
def handleEsignCompletion (db : DB) (agId : Nat) (key : String)
    (actor : Option Nat) (topic : String) (now : Nat) : Except DBErr DB :=
  if key == "" then Except.error DBErr.missingKey
  else if db.idempotency.contains key then Except.ok db
  else
    match markAgreementEffective { db with idempotency := db.idempotency ++ [key] }
        agId now with
    | Except.error e => Except.error e
    | Except.ok (_, fb, tb, db1) =>
      match insertTimelineEventChecked db1 agId EvType.ESIGN_COMPLETED actor
          (some (timelineBrokerFor db1 fb tb actor)) now with
      | Except.error e => Except.error e
      | Except.ok (_, db2) =>
        Except.ok (enqueueOutbox db2 (if topic == "" then "agreement.effective" else topic))

/-- `agreement.Record` projection of a row, as scanned by the Go code. -/
def recordOf (a : Agreement) : AgreementRecord :=
  { id := a.id, requestId := a.referralId,
    referrerBrokerId := a.fromBrokerId.getD 0,
    refereeBrokerId := a.toBrokerId.getD 0,
    feeRate := a.feeRate, protectDays := a.protectDays,
    effectiveAt := a.effectiveAt }

/-- The I1 idempotency probe of `CreateFromMatch`:
`SELECT ... FROM agreements WHERE referral_id = $1 AND status IN
('pending_signature','effective') LIMIT 1`. -/
def findActiveAgreement (l : List Agreement) (rid : Nat) : Option Agreement :=
  l.find? (fun a => a.referralId == rid && isActive a)

/-- `Repository.CreateFromMatch`: lock and validate the match, load the
request and both users' brokers, return the existing active agreement if
one exists (I1 guard), otherwise insert a `pending_signature` agreement
with the default fee rate 30 and protect days 90, CAS the referral
`open -> matched`, append `AGREEMENT_CREATED` and enqueue
`agreement.created`. -/
def createFromMatch (db : DB) (matchId requestId candidateUserId acceptedBy : Nat)
    (now : Nat) : Except DBErr (AgreementRecord × DB) :=
  match db.matchRows.find? (fun m => m.id == matchId) with
  | none => Except.error DBErr.notFound
  | some m =>
    if (m.requestId == requestId) = false then Except.error DBErr.matchRequestMismatch
    else if (m.candidateUserId == candidateUserId) = false then
      Except.error DBErr.matchCandidateMismatch
    else if (m.state == MState.accepted) = false then Except.error DBErr.matchNotAccepted
    else
      match db.requests.find? (fun r => r.id == requestId) with
      | none => Except.error DBErr.notFound
      | some rr =>
        match db.users.find? (fun u => u.id == rr.createdByUserId),
              db.users.find? (fun u => u.id == candidateUserId) with
        | some owner, some cand =>
          match owner.brokerId with
          | none => Except.error DBErr.ownerBrokerMissing
          | some ob =>
            match cand.brokerId with
            | none => Except.error DBErr.candidateBrokerMissing
            | some cb =>
              match findActiveAgreement db.agreements requestId with
              | some ex => Except.ok (recordOf ex, db)
              | none =>
                match insertAgreementChecked db (fun i =>
                    { id := i, referralId := requestId,
                      fromBrokerId := some ob, toBrokerId := some cb,
                      status := AgStatus.pending_signature, effectiveAt := none,
                      piiFirstAccessTime := none, eventSeq := 0,
                      feeRate := 30, protectDays := 90,
                      statusUpdatedAt := now, statusUpdatedBy := none,
                      updatedAt := now }) with
                | Except.error e => Except.error e
                | Except.ok (row, db1) =>
                  match insertTimelineEventChecked
                      (if rr.status == "open" then
                        { db1 with requests := db1.requests.map (fun r =>
                            if r.id == requestId && r.status == "open" then
                              { r with status := "matched" } else r) }
                        else db1) row.id EvType.AGREEMENT_CREATED
                      (some acceptedBy)
                      (some (timelineBrokerFor
                        (if rr.status == "open" then
                          { db1 with requests := db1.requests.map (fun r =>
                              if r.id == requestId && r.status == "open" then
                                { r with status := "matched" } else r) }
                          else db1) ob cb (some acceptedBy))) now with
                  | Except.error e => Except.error e
                  | Except.ok (_, db3) =>
                    Except.ok (recordOf row, enqueueOutbox db3 "agreement.created")
        | _, _ => Except.error DBErr.notFound

/-- The value returned by `MatchService.UpdateState`. -/
structure MatchUpdateResult where
  matchRow : MatchRow
  agreement : Option AgreementRecord
  deriving DecidableEq, Repr

/-- `MatchService.UpdateState` (with the agreement repository and pool
wired, as in the deployed service) together with
`acceptMatchAndCreateAgreement`: candidate must own the match; only
`accepted`/`declined` are acceptable targets; when the match is already
in the requested state the call returns the match with no agreement;
acceptances flip `invited -> accepted` inside the transaction and then
run `CreateFromMatch`; declines update the row directly. -/
def matchUpdateState (db : DB) (matchId candidateId : Nat) (newState : MState)
    (now : Nat) : Except DBErr (MatchUpdateResult × DB) :=
  match db.matchRows.find? (fun m => m.id == matchId) with
  | none => Except.error DBErr.notFound
  | some m =>
    if (m.candidateUserId == candidateId) = false then Except.error DBErr.forbidden
    else if (newState == MState.accepted || newState == MState.declined) = false then
      Except.error DBErr.invalidMatchTransition
    else if m.state == newState then
      Except.ok ({ matchRow := m, agreement := none }, db)
    else if newState == MState.accepted then
      if m.state == MState.accepted then
        -- snapshot already accepted: replay CreateFromMatch only
        match createFromMatch db matchId m.requestId m.candidateUserId
            m.candidateUserId now with
        | Except.error e => Except.error e
        | Except.ok (rec, db1) =>
          match db1.matchRows.find? (fun x => x.id == matchId) with
          | none => Except.error DBErr.notFound
          | some refreshed =>
            Except.ok ({ matchRow := refreshed, agreement := some rec }, db1)
      else if m.state == MState.invited then
        match createFromMatch { db with matchRows := db.matchRows.map (fun x =>
            if x.id == matchId then { x with state := MState.accepted } else x) }
            matchId m.requestId m.candidateUserId m.candidateUserId now with
        | Except.error e => Except.error e
        | Except.ok (rec, db1) =>
          match db1.matchRows.find? (fun x => x.id == matchId) with
          | none => Except.error DBErr.notFound
          | some refreshed =>
            Except.ok ({ matchRow := refreshed, agreement := some rec }, db1)
      else Except.error DBErr.invalidMatchTransition
    else
      match ({ db with matchRows := db.matchRows.map (fun x =>
          if x.id == matchId then { x with state := newState } else x) } :
          DB).matchRows.find? (fun x => x.id == matchId) with
      | none => Except.error DBErr.notFound
      | some updated =>
        Except.ok ({ matchRow := updated, agreement := none },
          { db with matchRows := db.matchRows.map (fun x =>
              if x.id == matchId then { x with state := newState } else x) })

/-- `get_pii_contact(p_agreement_id, p_actor)`: gate on
`status = 'effective'` and `get_tx_timestamp() >= effective_at`, set
`pii_first_access_time` when null, append a `PII_READ` audit row, and
return the `(client_name, client_phone, client_email)` projection of
`pii_contacts`. -/
def getPiiContact (db : DB) (agId : Nat) (actor : Nat) (now : Nat) :
    Except DBErr (List Contact × DB) :=
  match findAgreement db.agreements agId with
  | none => Except.error DBErr.notFound
  | some a =>
    if (a.status == AgStatus.effective) = false then Except.error DBErr.forbidden
    else
      match a.effectiveAt with
      | none => Except.error DBErr.forbidden
      | some t =>
        if now < t then Except.error DBErr.forbidden
        else
          match updateAgreementsWhere db
              (fun x => x.id == agId && x.piiFirstAccessTime.isNone)
              (piiTouchF now) with
          | Except.error e => Except.error e
          | Except.ok db1 =>
            let db2 := { db1 with audits := db1.audits ++
              [{ agreementId := agId, actorId := some actor, action := "PII_READ", ts := now }] }
            Except.ok
              ((db2.piiContacts.filter (fun c => c.agreementId == agId)).map
                 (fun c => { clientName := c.clientName, clientPhone := c.clientPhone,
                             clientEmail := c.clientEmail }), db2)

/-- Ownership join used by the dispute repository: the dispute's
agreement's referral request must be created by the caller. -/
def disputeOwned (db : DB) (d : Dispute) (ownerId : Nat) : Bool :=
  match findAgreement db.agreements d.agreementId with
  | some a =>
    match db.requests.find? (fun r => r.id == a.referralId) with
    | some rr => rr.createdByUserId == ownerId
    | none => false
  | none => false

/-- `dispute.Repository.Create`: insert `under_review` when the agreement
belongs to the owner, Forbidden otherwise. -/
def disputeCreate (db : DB) (ownerId agId : Nat) (now : Nat) :
    Except DBErr (Dispute × DB) :=
  match findAgreement db.agreements agId with
  | none => Except.error DBErr.forbidden
  | some a =>
    match db.requests.find? (fun r => r.id == a.referralId) with
    | none => Except.error DBErr.forbidden
    | some rr =>
      if (rr.createdByUserId == ownerId) = false then Except.error DBErr.forbidden
      else
        let d : Dispute := { id := db.nextId, agreementId := agId,
                             status := DStatus.under_review, resolvedAt := none,
                             updatedAt := now }
        Except.ok (d, { db with disputes := db.disputes ++ [d],
                                nextId := db.nextId + 1 })

/-- `dispute.Repository.Resolve` together with the
`disputes_resolve_guard` BEFORE UPDATE trigger: the guarded UPDATE only
matches an owned, not-yet-resolved dispute (a resolved one yields
BadStatus, an unknown or foreign one Forbidden); the trigger sets the
agreement to `disputed` where not already (a constraint-checked UPDATE),
marks every invoice of the agreement whose status is not in
`('paid','written_off')` invalidated, and stamps `resolved_at`. -/
def disputeResolve (db : DB) (ownerId dId : Nat) (now : Nat) :
    Except DBErr (Dispute × DB) :=
  match db.disputes.find? (fun d => d.id == dId) with
  | none => Except.error DBErr.forbidden
  | some d =>
    if disputeOwned db d ownerId = false then Except.error DBErr.forbidden
    else if d.status == DStatus.resolved then Except.error DBErr.badStatus
    else
      match updateAgreementsWhere db
          (fun a => a.id == d.agreementId && !(a.status == AgStatus.disputed))
          disputedF with
      | Except.error e => Except.error e
      | Except.ok db1 =>
        Except.ok ({ d with status := DStatus.resolved,
                            resolvedAt := some now, updatedAt := now },
          { db1 with
            invoices := db1.invoices.map (fun (i : Invoice) =>
              if i.agreementId == d.agreementId &&
                 !(i.status == "paid" || i.status == "written_off") then
                { i with isInvalidated := true } else i),
            disputes := db1.disputes.map (fun (x : Dispute) =>
              if x.id == dId then
                { d with status := DStatus.resolved,
                         resolvedAt := some now, updatedAt := now } else x) })

/-- The stress `Creator` actor:
`INSERT INTO agreements (referral_id, from_broker_id, to_broker_id, status)
VALUES ($1,$2,$3,'pending_signature')` with DDL defaults for the
remaining columns. -/
def creatorInsertAgreement (db : DB) (rid fb tb : Nat) (now : Nat) :
    Except DBErr DB :=
  match insertAgreementChecked db (fun i =>
      { id := i, referralId := rid, fromBrokerId := some fb, toBrokerId := some tb,
        status := AgStatus.pending_signature, effectiveAt := none,
        piiFirstAccessTime := none, eventSeq := 0, feeRate := 0, protectDays := 0,
        statusUpdatedAt := now, statusUpdatedBy := none, updatedAt := now }) with
  | Except.error e => Except.error e
  | Except.ok (_, db') => Except.ok db'

/-- `CRUDService.Create`: validate referral ownership, insert a `draft`
agreement, append `AGREEMENT_CREATED` (actor context nil, so the session
broker is the referrer) and enqueue `agreement.created`. -/
def agreementCreateDraft (db : DB) (userId requestId refBroker refeBroker : Nat)
    (feeRate protectDays : Nat) (now : Nat) : Except DBErr (AgreementRecord × DB) :=
  match db.requests.find? (fun r => r.id == requestId) with
  | none => Except.error DBErr.notFound
  | some rr =>
    if (rr.createdByUserId == userId) = false then Except.error DBErr.forbidden
    else
      match insertAgreementChecked db (fun i =>
          { id := i, referralId := requestId,
            fromBrokerId := some refBroker, toBrokerId := some refeBroker,
            status := AgStatus.draft, effectiveAt := none,
            piiFirstAccessTime := none, eventSeq := 0,
            feeRate := feeRate, protectDays := protectDays,
            statusUpdatedAt := now, statusUpdatedBy := none, updatedAt := now }) with
      | Except.error e => Except.error e
      | Except.ok (row, db1) =>
        match insertTimelineEventChecked db1 row.id EvType.AGREEMENT_CREATED none
            (some (timelineBrokerFor db1 refBroker refeBroker none)) now with
        | Except.error e => Except.error e
        | Except.ok (_, db2) =>
          Except.ok (recordOf row, enqueueOutbox db2 "agreement.created")

/-- Insert an invoice for an existing agreement (the billing write that
seeds `invoices`; FK `invoices.agreement_id REFERENCES agreements`). -/
def insertInvoice (db : DB) (agId : Nat) (st : String) : Except DBErr DB :=
  match findAgreement db.agreements agId with
  | none => Except.error DBErr.notFound
  | some _ =>
    let inv : Invoice :=
      { id := db.nextId, agreementId := agId, status := st, isInvalidated := false }
    Except.ok { db with invoices := db.invoices ++ [inv], nextId := db.nextId + 1 }

/-- Insert the PII contact row created at agreement draft time
(`pii_contacts.agreement_id` is unique and references `agreements`). -/
def insertPiiContact (db : DB) (agId : Nat) (nm em ph : String) : Except DBErr DB :=
  match findAgreement db.agreements agId with
  | none => Except.error DBErr.notFound
  | some _ =>
    if db.piiContacts.any (fun c => c.agreementId == agId) then
      Except.error DBErr.uniqueViolation
    else
      Except.ok { db with piiContacts := db.piiContacts ++
        [{ agreementId := agId, clientName := nm, clientEmail := em, clientPhone := ph }] }

/-- Strip the business result of a transaction, keeping the new state. -/
def afterP {α : Type} (e : Except DBErr (α × DB)) : Option DB :=
  match e with
  | Except.ok (_, d) => some d
  | Except.error _ => none

def afterD (e : Except DBErr DB) : Option DB :=
  match e with
  | Except.ok d => some d
  | Except.error _ => none

/-- A successful core transaction.  Failed transactions roll back and do
not change the state, so reachability is generated by successes. -/
inductive Step : DB → DB → Prop
  | matchUpdate (db db' : DB) (mId cId : Nat) (st : MState) (now : Nat) :
      afterP (matchUpdateState db mId cId st now) = some db' → Step db db'
  | transition (db db' : DB) (agId : Nat) (actor : Option Nat) (next : AgStatus) (now : Nat) :
      afterD (statusTransition db agId actor next now) = some db' → Step db db'
  | esign (db db' : DB) (agId : Nat) (key : String) (actor : Option Nat)
      (topic : String) (now : Nat) :
      afterD (handleEsignCompletion db agId key actor topic now) = some db' → Step db db'
  | pii (db db' : DB) (agId actor now : Nat) :
      afterP (getPiiContact db agId actor now) = some db' → Step db db'
  | dcreate (db db' : DB) (ownerId agId now : Nat) :
      afterP (disputeCreate db ownerId agId now) = some db' → Step db db'
  | dresolve (db db' : DB) (ownerId dId now : Nat) :
      afterP (disputeResolve db ownerId dId now) = some db' → Step db db'
  | creator (db db' : DB) (rid fb tb now : Nat) :
      afterD (creatorInsertAgreement db rid fb tb now) = some db' → Step db db'
  | draft (db db' : DB) (userId requestId refBroker refeBroker feeRate protectDays now : Nat) :
      afterP (agreementCreateDraft db userId requestId refBroker refeBroker
        feeRate protectDays now) = some db' → Step db db'
  | writer (db db' : DB) (agId : Nat) (ty : EvType) (actor brokerCtx : Option Nat) (now : Nat) :
      afterP (insertTimelineEventChecked db agId ty actor brokerCtx now) = some db' → Step db db'
  | invoice (db db' : DB) (agId : Nat) (st : String) :
      afterD (insertInvoice db agId st) = some db' → Step db db'
  | pcontact (db db' : DB) (agId : Nat) (nm em ph : String) :
      afterD (insertPiiContact db agId nm em ph) = some db' → Step db db'

/-- An initial state: users, brokers, referral requests and match
invitations may pre-exist (their CRUD is outside the core), but the
core-owned tables start empty. -/
def InitDB (db : DB) : Prop :=
  db.agreements = [] ∧ db.events = [] ∧ db.audits = [] ∧ db.outbox = [] ∧
  db.idempotency = [] ∧ db.disputes = [] ∧ db.invoices = [] ∧ db.piiContacts = []

/-- Database states reachable through the modeled core transactions. -/
inductive Reachable : DB → Prop
  | init (db : DB) : InitDB db → Reachable db
  | step (db db' : DB) : Reachable db → Step db db' → Reachable db'

/-! Concrete states used to witness the theorems: an owner (user 1,
broker 10) with referral request 3 and an invitation (match 4) for the
candidate (user 2, broker 11). -/

def dbSeed : DB :=
  { agreements := [], events := [], audits := [], outbox := [], idempotency := [],
    disputes := [], invoices := [],
    matchRows := [{ id := 4, requestId := 3, candidateUserId := 2, state := MState.invited }],
    requests := [{ id := 3, createdByUserId := 1, status := "open" }],
    users := [{ id := 1, brokerId := some 10 }, { id := 2, brokerId := some 11 }],
    piiContacts := [], nextId := 100 }

/-- After the candidate accepts match 4 at time 5: agreement 100 is in
`pending_signature`. -/
def dbAccepted : DB := (afterP (matchUpdateState dbSeed 4 2 MState.accepted 5)).getD dbSeed

/-- After the PII contact row for agreement 100 is stored. -/
def dbContact : DB :=
  (afterD (insertPiiContact dbAccepted 100 "Ann Client" "ann@example.com" "555")).getD dbAccepted

/-- After e-sign completion at time 5 (`effective_at = 5`). -/
def dbEffective : DB :=
  (afterD (handleEsignCompletion dbContact 100 "k1" (some 2) "" 5)).getD dbContact

/-- After the gated PII read at time 5 (equal to `effective_at`). -/
def dbPiiRead : DB := (afterP (getPiiContact dbEffective 100 1 5)).getD dbEffective

/-- After an invoice and a dispute are opened on agreement 100. -/
def dbInvoiced : DB := (afterD (insertInvoice dbEffective 100 "open")).getD dbEffective

def dbDisputed : DB := (afterP (disputeCreate dbInvoiced 1 100 6)).getD dbInvoiced

/-- A second referral (request 5) with a draft agreement, for the
transition counterexamples. -/
def dbSeed2 : DB :=
  { dbSeed with requests := dbSeed.requests ++ [{ id := 5, createdByUserId := 1, status := "open" }] }

def dbDraft : DB :=
  (afterP (agreementCreateDraft dbSeed2 1 5 10 11 30 90 4)).getD dbSeed2

/-- Whether a transaction committed. -/
def txOk {α : Type} : Except DBErr α → Bool
  | Except.ok _ => true
  | Except.error _ => false

/-- `COUNT(*) FROM timeline_events WHERE agreement_id = agId AND type = ty`. -/
def countType (evs : List TimelineEvent) (agId : Nat) (ty : EvType) : Nat :=
  (evs.filter (fun e => e.agreementId == agId && e.type == ty)).length

/-- `COUNT(*) FROM outbox WHERE topic = t`. -/
def countTopic (ob : List OutboxMsg) (t : String) : Nat :=
  (ob.filter (fun m => m.topic == t)).length

/-- The agreement carried by a `MatchService.UpdateState` result. -/
def acceptedAgreementOf (e : Except DBErr (MatchUpdateResult × DB)) :
    Option AgreementRecord :=
  match e with
  | Except.ok (r, _) => r.agreement
  | Except.error _ => none

/-- The state after `markAgreementEffective` on the contact-seeded state. -/
def dbMarked : DB :=
  match markAgreementEffective dbContact 100 5 with
  | Except.ok r => r.2.2.2
  | Except.error _ => dbContact

/-- The state after a stress `EventWriter` appends `OFFER_MADE` to the
effective agreement at time 6. -/
def dbOffer : DB :=
  match insertTimelineEventChecked dbEffective 100 EvType.OFFER_MADE none (some 10) 6 with
  | Except.ok p => p.2
  | Except.error _ => dbEffective

/-- The state and row after resolving dispute 102. -/
def dbResolved : DB :=
  match disputeResolve dbDisputed 1 102 9 with
  | Except.ok p => p.2
  | Except.error _ => dbDisputed

def recResolved : Dispute :=
  match disputeResolve dbDisputed 1 102 9 with
  | Except.ok p => p.1
  | Except.error _ =>
    { id := 0, agreementId := 0, status := DStatus.under_review,
      resolvedAt := none, updatedAt := 0 }

/-- A dispute opened on the never-effective draft agreement. -/
def dbDraftDisputed : DB := (afterP (disputeCreate dbDraft 1 100 6)).getD dbDraft

/-- The pending-signature agreement row of `dbAccepted` (and of the states
derived from it before the e-sign). -/
def agAcc : Agreement :=
  { id := 100, referralId := 3, fromBrokerId := some 10, toBrokerId := some 11,
    status := AgStatus.pending_signature, effectiveAt := none,
    piiFirstAccessTime := none, eventSeq := 1, feeRate := 30, protectDays := 90,
    statusUpdatedAt := 5, statusUpdatedBy := none, updatedAt := 5 }

/-- The effective agreement row of `dbEffective`. -/
def agEff : Agreement :=
  { id := 100, referralId := 3, fromBrokerId := some 10, toBrokerId := some 11,
    status := AgStatus.effective, effectiveAt := some 5,
    piiFirstAccessTime := none, eventSeq := 2, feeRate := 30, protectDays := 90,
    statusUpdatedAt := 5, statusUpdatedBy := none, updatedAt := 5 }

/-- The contact projection the gated read returns on `dbEffective`. -/
def csPii : List Contact :=
  [{ clientName := "Ann Client", clientPhone := "555", clientEmail := "ann@example.com" }]

/-! ### The inductive invariant of the storage layer -/

/-- `[1, 2, ..., n]`: the committed `seq` values of an agreement whose
`event_seq` counter reads `n`. -/
def seqList (n : Nat) : List Nat := (List.range n).map (fun k => k + 1)

/-- The storage invariant maintained by every core transaction. -/
structure Inv (db : DB) : Prop where
  checksOK : agreementsChecksB db.agreements = true
  idsLt : ∀ a ∈ db.agreements, a.id < db.nextId
  idsNodup : (db.agreements.map Agreement.id).Nodup
  seqOK : ∀ a ∈ db.agreements,
    (db.events.filter (fun e => e.agreementId == a.id)).map TimelineEvent.seq =
      seqList a.eventSeq
  eventsFK : ∀ e ∈ db.events, ∃ a ∈ db.agreements, e.agreementId = a.id
  auditOK : ∀ u ∈ db.audits, u.action = "PII_READ" →
    ∃ a ∈ db.agreements, u.agreementId = a.id ∧ ∃ t, a.effectiveAt = some t ∧ t ≤ u.ts

theorem seqList_zero : seqList 0 = [] := rfl

theorem seqList_snoc (n : Nat) : seqList n ++ [n + 1] = seqList (n + 1) := by
  simp [seqList, List.range_succ]

theorem mapWhere_map_id {p : Agreement → Bool} {f : Agreement → Agreement}
    (hid : ∀ x, (f x).id = x.id) (l : List Agreement) :
    (mapWhere p f l).map Agreement.id = l.map Agreement.id := by
  induction l with
  | nil => rfl
  | cons a l ih =>
    simp only [mapWhere, List.map_cons] at *
    refine congrArg₂ List.cons ?_ ih
    by_cases hp : p a
    · simp [hp, hid]
    · simp [hp]

theorem nat_eq_of_beq {m n : Nat} (h : (m == n) = true) : m = n := by
  simpa using h

theorem mem_mapWhere {p : Agreement → Bool} {f : Agreement → Agreement}
    {l : List Agreement} {a' : Agreement} (h : a' ∈ mapWhere p f l) :
    ∃ a ∈ l, a' = if p a then f a else a := by
  obtain ⟨a, ha, he⟩ := List.mem_map.mp h
  exact ⟨a, ha, he.symm⟩

theorem mapWhere_mem_of_mem {p : Agreement → Bool} {f : Agreement → Agreement}
    {l : List Agreement} {a : Agreement} (h : a ∈ l) :
    (if p a then f a else a) ∈ mapWhere p f l :=
  List.mem_map_of_mem _ h

theorem bool_true_of_not_false {b : Bool} (h : ¬ b = false) : b = true := by
  cases b
  · exact absurd rfl h
  · rfl

theorem findAgreement_mapWhere {p : Agreement → Bool} {f : Agreement → Agreement}
    (hid : ∀ x, (f x).id = x.id) (l : List Agreement) (i : Nat) :
    findAgreement (mapWhere p f l) i =
      (findAgreement l i).map (fun a => if p a then f a else a) := by
  induction l with
  | nil => rfl
  | cons a l ih =>
    have hstep : mapWhere p f (a :: l) = (if p a then f a else a) :: mapWhere p f l := rfl
    have hidite : ((if p a then f a else a).id) = a.id := by
      by_cases hp : p a
      · simp [hp, hid]
      · simp [hp]
    rw [hstep]
    cases hi : (a.id == i) with
    | true =>
      have hi' : (((if p a then f a else a).id) == i) = true := by rw [hidite]; exact hi
      simp [findAgreement, hi, hi']
    | false =>
      have hi' : (((if p a then f a else a).id) == i) = false := by rw [hidite]; exact hi
      simpa [findAgreement, hi, hi'] using ih

theorem all_chk_iff (l : List Agreement) :
    (l.all chkEffectiveAtPair = true) ↔ ∀ a ∈ l, chkEffectiveAtPair a = true :=
  List.all_eq_true

theorem chk_char (a : Agreement) :
    chkEffectiveAtPair a = true ↔
      (statusRequiresEffectiveAt a.status = true ↔ a.effectiveAt ≠ none) := by
  unfold chkEffectiveAtPair
  by_cases h : statusRequiresEffectiveAt a.status = true
  · cases ha : a.effectiveAt <;> simp [h, ha]
  · have h' : statusRequiresEffectiveAt a.status = false := by
      cases hs : statusRequiresEffectiveAt a.status
      · rfl
      · exact absurd hs h
    cases ha : a.effectiveAt <;> simp [h', ha]

theorem uniqueActiveB_length {l : List Agreement} (hu : uniqueActiveB l = true) (r : Nat) :
    (l.filter (fun a => a.referralId == r && isActive a)).length ≤ 1 := by
  induction l with
  | nil => simp
  | cons a l ih =>
    have hu' : noActiveConflict a l = true ∧ uniqueActiveB l = true := by
      simpa [uniqueActiveB] using hu
    cases hhead : (a.referralId == r && isActive a) with
    | true =>
      have hsplit : (a.referralId == r) = true ∧ isActive a = true := by
        simpa using hhead
      have hrid : a.referralId = r := nat_eq_of_beq hsplit.1
      have hrest : l.filter (fun b => b.referralId == r && isActive b) = [] := by
        have hconf := hu'.1
        unfold noActiveConflict at hconf
        rw [hsplit.2] at hconf
        simp only [Bool.not_true, Bool.false_or] at hconf
        rw [List.filter_eq_nil_iff]
        intro b hb hbpass
        have hbsplit : (b.referralId == r) = true ∧ isActive b = true := by
          simpa using hbpass
        have hball := (List.all_eq_true.mp hconf) b hb
        rw [hbsplit.2] at hball
        have hbne : (b.referralId == a.referralId) = false := by
          cases hbeq : (b.referralId == a.referralId)
          · rfl
          · rw [hbeq] at hball; simp at hball
        have : b.referralId = a.referralId :=
          (nat_eq_of_beq hbsplit.1).trans hrid.symm
        rw [this] at hbne
        simp at hbne
      simp [List.filter_cons, hhead, hrest]
    | false =>
      simpa [List.filter_cons, hhead] using ih hu'.2

/-- Success shape of a checked UPDATE on `agreements`. -/
theorem updateAgreementsWhere_ok {db : DB} {p : Agreement → Bool}
    {f : Agreement → Agreement} {db' : DB}
    (h : updateAgreementsWhere db p f = Except.ok db') :
    db' = { db with agreements := mapWhere p f db.agreements } ∧
      (mapWhere p f db.agreements).all chkEffectiveAtPair = true ∧
      uniqueActiveB (mapWhere p f db.agreements) = true := by
  unfold updateAgreementsWhere at h
  by_cases h1 : ((mapWhere p f db.agreements).all chkEffectiveAtPair) = false
  · simp [h1] at h
  · by_cases h2 : uniqueActiveB (mapWhere p f db.agreements) = false
    · simp [h1, h2] at h
    · simp only [h1, h2, if_false] at h
      refine ⟨(Except.ok.injEq _ _).mp h |>.symm, ?_, ?_⟩
      · exact bool_true_of_not_false h1
      · exact bool_true_of_not_false h2

/-- Success shape of a checked INSERT on `agreements`. -/
theorem insertAgreementChecked_ok {db : DB} {f : Nat → Agreement}
    {a : Agreement} {db' : DB}
    (h : insertAgreementChecked db f = Except.ok (a, db')) :
    a = f db.nextId ∧
      db' = { db with agreements := db.agreements ++ [f db.nextId],
                      nextId := db.nextId + 1 } ∧
      (db.agreements ++ [f db.nextId]).all chkEffectiveAtPair = true ∧
      uniqueActiveB (db.agreements ++ [f db.nextId]) = true := by
  unfold insertAgreementChecked at h
  by_cases h1 : ((db.agreements ++ [f db.nextId]).all chkEffectiveAtPair) = false
  · simp [h1] at h
  · by_cases h2 : uniqueActiveB (db.agreements ++ [f db.nextId]) = false
    · simp [h1, h2] at h
    · simp only [h1, h2, if_false] at h
      have h' := (Except.ok.injEq _ _).mp h
      have ha := congrArg Prod.fst h'
      have hdb := congrArg Prod.snd h'
      exact ⟨ha.symm, hdb.symm,
        bool_true_of_not_false h1, bool_true_of_not_false h2⟩

theorem findAgreement_mem {l : List Agreement} {i : Nat} {a : Agreement}
    (h : findAgreement l i = some a) : a ∈ l ∧ a.id = i := by
  induction l with
  | nil => cases h
  | cons x l ih =>
    by_cases hx : (x.id == i) = true
    · rw [findAgreement, if_pos hx] at h
      cases h
      exact ⟨List.mem_cons_self _ _, nat_eq_of_beq hx⟩
    · rw [findAgreement, if_neg hx] at h
      obtain ⟨hm, hi⟩ := ih h
      exact ⟨List.mem_cons_of_mem _ hm, hi⟩

theorem id_unique_of_nodup {l : List Agreement}
    (hnd : (l.map Agreement.id).Nodup) {a b : Agreement}
    (ha : a ∈ l) (hb : b ∈ l) (hid : a.id = b.id) : a = b :=
  List.inj_on_of_nodup_map hnd ha hb hid

/-- `Inv` only looks at agreements, events, audits and `nextId`; the other
tables may change freely and `nextId` may grow. -/
theorem inv_congr {db db' : DB} (h : Inv db)
    (hag : db'.agreements = db.agreements) (hev : db'.events = db.events)
    (hau : db'.audits = db.audits) (hid : db.nextId ≤ db'.nextId) : Inv db' := by
  refine ⟨?_, ?_, ?_, ?_, ?_, ?_⟩
  · rw [hag]; exact h.checksOK
  · intro a ha; rw [hag] at ha; exact lt_of_lt_of_le (h.idsLt a ha) hid
  · rw [hag]; exact h.idsNodup
  · intro a ha; rw [hag] at ha; rw [hev]; exact h.seqOK a ha
  · intro e he; rw [hev] at he; rw [hag]; exact h.eventsFK e he
  · intro u hu hact; rw [hau] at hu; rw [hag]; exact h.auditOK u hu hact

/-- Inserting a fresh agreement row (with the generated id and a zeroed
`event_seq`) preserves the invariant. -/
theorem inv_insertAgreement {db : DB} {f : Nat → Agreement} {a : Agreement} {db' : DB}
    (hInv : Inv db) (hid : (f db.nextId).id = db.nextId)
    (hseq0 : (f db.nextId).eventSeq = 0)
    (h : insertAgreementChecked db f = Except.ok (a, db')) : Inv db' := by
  obtain ⟨-, hdb, hall, huniq⟩ := insertAgreementChecked_ok h
  have hfresh : ∀ e ∈ db.events, (e.agreementId == (f db.nextId).id) = false := by
    intro e he
    obtain ⟨b, hb, hbid⟩ := hInv.eventsFK e he
    have : e.agreementId ≠ (f db.nextId).id := by
      rw [hid, hbid]
      exact Nat.ne_of_lt (hInv.idsLt b hb)
    simpa using this
  subst hdb
  refine ⟨?_, ?_, ?_, ?_, ?_, ?_⟩
  · simp only [agreementsChecksB]
    rw [hall, huniq]; rfl
  · intro x hx
    rcases List.mem_append.mp hx with hx | hx
    · exact Nat.lt_succ_of_lt (hInv.idsLt x hx)
    · rcases List.mem_singleton.mp hx with rfl
      rw [hid]; exact Nat.lt_succ_self _
  · rw [List.map_append]
    rw [List.nodup_append]
    refine ⟨hInv.idsNodup, List.nodup_singleton _, ?_⟩
    intro x hx hx'
    simp only [List.map_cons, List.map_nil, List.mem_singleton] at hx'
    obtain ⟨b, hb, hbid⟩ := List.mem_map.mp hx
    rw [hx', hid] at hbid
    exact absurd hbid (Nat.ne_of_lt (hInv.idsLt b hb))
  · intro x hx
    rcases List.mem_append.mp hx with hx | hx
    · exact hInv.seqOK x hx
    · rcases List.mem_singleton.mp hx with rfl
      have : db.events.filter (fun e => e.agreementId == (f db.nextId).id) = [] := by
        rw [List.filter_eq_nil_iff]
        intro e he
        rw [hfresh e he]; simp
      rw [this, hseq0]; rfl
  · intro e he
    obtain ⟨b, hb, hbid⟩ := hInv.eventsFK e he
    exact ⟨b, List.mem_append.mpr (Or.inl hb), hbid⟩
  · intro u hu hact
    obtain ⟨b, hb, hbid, t, ht, hts⟩ := hInv.auditOK u hu hact
    exact ⟨b, List.mem_append.mpr (Or.inl hb), hbid, t, ht, hts⟩

/-- A checked UPDATE that preserves ids, `event_seq` and any non-null
`effective_at` preserves the invariant. -/
theorem inv_updateWhere {db : DB} {p : Agreement → Bool} {f : Agreement → Agreement}
    {db' : DB} (hInv : Inv db)
    (h : updateAgreementsWhere db p f = Except.ok db')
    (hid : ∀ x, (f x).id = x.id)
    (hseq : ∀ x, (f x).eventSeq = x.eventSeq)
    (heff : ∀ x t, x.effectiveAt = some t → (f x).effectiveAt = some t) : Inv db' := by
  obtain ⟨hdb, hall, huniq⟩ := updateAgreementsWhere_ok h
  have hidite : ∀ x : Agreement, ((if p x then f x else x).id) = x.id := by
    intro x; by_cases hp : p x
    · simp [hp, hid]
    · simp [hp]
  have hseqite : ∀ x : Agreement, ((if p x then f x else x).eventSeq) = x.eventSeq := by
    intro x; by_cases hp : p x
    · simp [hp, hseq]
    · simp [hp]
  have heffite : ∀ (x : Agreement) (t : Nat), x.effectiveAt = some t →
      ((if p x then f x else x).effectiveAt) = some t := by
    intro x t ht; by_cases hp : p x
    · simp [hp]; exact heff x t ht
    · simp [hp]; exact ht
  subst hdb
  refine ⟨?_, ?_, ?_, ?_, ?_, ?_⟩
  · simp only [agreementsChecksB]
    rw [hall, huniq]; rfl
  · intro x hx
    obtain ⟨b, hb, hbx⟩ := mem_mapWhere hx
    rw [hbx, hidite b]
    exact hInv.idsLt b hb
  · rw [mapWhere_map_id hid]
    exact hInv.idsNodup
  · intro x hx
    obtain ⟨b, hb, hbx⟩ := mem_mapWhere hx
    rw [hbx, hidite b, hseqite b]
    exact hInv.seqOK b hb
  · intro e he
    obtain ⟨b, hb, hbid⟩ := hInv.eventsFK e he
    exact ⟨(if p b then f b else b), mapWhere_mem_of_mem hb, by rw [hidite b]; exact hbid⟩
  · intro u hu hact
    obtain ⟨b, hb, hbid, t, ht, hts⟩ := hInv.auditOK u hu hact
    exact ⟨(if p b then f b else b), mapWhere_mem_of_mem hb,
      by rw [hidite b]; exact hbid, t, heffite b t ht, hts⟩

/-- Success shape of a triggered timeline insert. -/
theorem insertTimelineEventChecked_ok {db : DB} {agId : Nat} {ty : EvType}
    {actor brokerCtx : Option Nat} {now : Nat} {s : Nat} {db' : DB}
    (h : insertTimelineEventChecked db agId ty actor brokerCtx now = Except.ok (s, db')) :
    ∃ a b, findAgreement db.agreements agId = some a ∧ brokerCtx = some b ∧
      s = a.eventSeq + 1 ∧
      db' = { db with
        agreements := mapWhere (fun x => x.id == agId) bump db.agreements,
        events := db.events ++ [mkEvent agId (a.eventSeq + 1) ty actor b now] } ∧
      (mapWhere (fun x => x.id == agId) bump db.agreements).all chkEffectiveAtPair = true ∧
      uniqueActiveB (mapWhere (fun x => x.id == agId) bump db.agreements) = true := by
  have hbump : (fun (x : Agreement) => { x with eventSeq := x.eventSeq + 1 }) = bump := rfl
  unfold insertTimelineEventChecked at h
  cases hf : findAgreement db.agreements agId with
  | none => rw [hf] at h; cases h
  | some a =>
    simp only [hf] at h
    by_cases hg1 : (gatedType ty && !(statusRequiresEffectiveAt a.status)) = true
    · simp [hg1] at h
    · rw [if_neg hg1] at h
      by_cases hg2 : (gatedType ty && !(a.effectiveAt.any (fun t => decide (t ≤ now)))) = true
      · simp [hg2] at h
      · rw [if_neg hg2] at h
        cases hb : brokerCtx with
        | none => simp only [hb] at h; cases h
        | some b =>
          simp only [hb] at h
          by_cases hg3 : (!(a.fromBrokerId == some b || a.toBrokerId == some b)) = true
          · simp [hg3] at h
          · rw [if_neg hg3] at h
            by_cases hg5 : actorFKOk db actor = false
            · rw [if_pos hg5] at h; cases h
            · rw [if_neg hg5] at h
              by_cases hg4 : (db.events.any
                  (fun e => e.agreementId == agId && e.seq == a.eventSeq + 1)) = true
              · simp [hg4] at h
              · rw [if_neg hg4] at h
                by_cases h1 : ((mapWhere (fun x => x.id == agId) bump db.agreements).all
                    chkEffectiveAtPair) = false
                · rw [if_pos h1] at h; cases h
                · rw [if_neg h1] at h
                  by_cases h2 : uniqueActiveB
                      (mapWhere (fun x => x.id == agId) bump db.agreements) = false
                  · rw [if_pos h2] at h; cases h
                  · rw [if_neg h2] at h
                    cases h
                    exact ⟨a, b, rfl, rfl, rfl, rfl,
                      bool_true_of_not_false h1, bool_true_of_not_false h2⟩

/-- A triggered timeline insert preserves the invariant. -/
theorem inv_insertEvent {db : DB} {agId : Nat} {ty : EvType}
    {actor brokerCtx : Option Nat} {now : Nat} {s : Nat} {db' : DB}
    (hInv : Inv db)
    (h : insertTimelineEventChecked db agId ty actor brokerCtx now = Except.ok (s, db')) :
    Inv db' := by
  obtain ⟨a, b, hf, -, -, hdb, hall, huniq⟩ := insertTimelineEventChecked_ok h
  obtain ⟨hamem, haid⟩ := findAgreement_mem hf
  have hidite : ∀ x : Agreement,
      ((if (x.id == agId) then bump x else x).id) = x.id := by
    intro x; by_cases hp : (x.id == agId) = true
    · simp [hp, bump]
    · simp [hp]
  subst hdb
  refine ⟨?_, ?_, ?_, ?_, ?_, ?_⟩
  · simp only [agreementsChecksB]
    rw [hall, huniq]; rfl
  · intro x hx
    obtain ⟨c, hc, hcx⟩ := mem_mapWhere hx
    rw [hcx, hidite c]
    exact hInv.idsLt c hc
  · rw [mapWhere_map_id (by intro x; simp [bump])]
    exact hInv.idsNodup
  · intro x hx
    obtain ⟨c, hc, hcx⟩ := mem_mapWhere hx
    by_cases hcid : (c.id == agId) = true
    · have hceq : c = a := id_unique_of_nodup hInv.idsNodup hc hamem
        ((nat_eq_of_beq hcid).trans haid.symm)
      subst hceq
      rw [hcx, if_pos hcid]
      have hev1 : ((mkEvent agId (c.eventSeq + 1) ty actor b now).agreementId
          == (bump c).id) = true := by
        simp [mkEvent, bump, haid]
      have hfilterev : (db.events ++ [mkEvent agId (c.eventSeq + 1) ty actor b now]).filter
          (fun e => e.agreementId == (bump c).id) =
          db.events.filter (fun e => e.agreementId == (bump c).id) ++
          [mkEvent agId (c.eventSeq + 1) ty actor b now] := by
        rw [List.filter_append]
        congr 1
        simp [List.filter_cons, hev1]
      have hbid : (bump c).id = c.id := by simp [bump]
      rw [hfilterev, List.map_append, hbid, hInv.seqOK c hc]
      have hbseq : (bump c).eventSeq = c.eventSeq + 1 := by simp [bump]
      rw [hbseq]
      simpa using seqList_snoc c.eventSeq
    · rw [hcx, if_neg hcid]
      have hne : ((mkEvent agId (a.eventSeq + 1) ty actor b now).agreementId
          == c.id) = false := by
        have : c.id ≠ agId := by
          intro hcontra
          rw [hcontra] at hcid
          simp at hcid
        simpa [mkEvent] using (Ne.symm this)
      have hfilterev : (db.events ++ [mkEvent agId (a.eventSeq + 1) ty actor b now]).filter
          (fun e => e.agreementId == c.id) =
          db.events.filter (fun e => e.agreementId == c.id) := by
        rw [List.filter_append]
        have hnil : ([mkEvent agId (a.eventSeq + 1) ty actor b now] :
            List TimelineEvent).filter (fun e => e.agreementId == c.id) = [] := by
          simp [List.filter_cons, hne]
        rw [hnil, List.append_nil]
      rw [hfilterev]
      exact hInv.seqOK c hc
  · intro e he
    rcases List.mem_append.mp he with he | he
    · obtain ⟨c, hc, hcid⟩ := hInv.eventsFK e he
      exact ⟨(if (c.id == agId) then bump c else c),
        mapWhere_mem_of_mem hc, by rw [hidite c]; exact hcid⟩
    · rcases List.mem_singleton.mp he with rfl
      refine ⟨(if (a.id == agId) then bump a else a),
        mapWhere_mem_of_mem hamem, ?_⟩
      rw [hidite a]
      simp [mkEvent, haid]
  · intro u hu hact
    obtain ⟨c, hc, hcid, t, ht, hts⟩ := hInv.auditOK u hu hact
    refine ⟨(if (c.id == agId) then bump c else c),
      mapWhere_mem_of_mem hc, by rw [hidite c]; exact hcid, t, ?_, hts⟩
    by_cases hp : (c.id == agId) = true
    · simp [hp, bump]; exact ht
    · simp [hp]; exact ht

/-! ### Per-operation invariant preservation -/

theorem inv_creator {db : DB} {rid fb tb now : Nat} {db' : DB} (hInv : Inv db)
    (h : creatorInsertAgreement db rid fb tb now = Except.ok db') : Inv db' := by
  unfold creatorInsertAgreement at h
  cases hi : insertAgreementChecked db (fun i =>
      { id := i, referralId := rid, fromBrokerId := some fb, toBrokerId := some tb,
        status := AgStatus.pending_signature, effectiveAt := none,
        piiFirstAccessTime := none, eventSeq := 0, feeRate := 0, protectDays := 0,
        statusUpdatedAt := now, statusUpdatedBy := none, updatedAt := now }) with
  | error e => rw [hi] at h; cases h
  | ok p =>
    obtain ⟨a1, db1⟩ := p
    simp only [hi] at h
    cases h
    exact inv_insertAgreement hInv rfl rfl hi

theorem inv_markEffective {db : DB} {agId now : Nat} {r : Nat × Nat × Nat × DB}
    (hInv : Inv db) (h : markAgreementEffective db agId now = Except.ok r) :
    Inv r.2.2.2 := by
  unfold markAgreementEffective at h
  cases hf : findAgreement db.agreements agId with
  | none => rw [hf] at h; cases h
  | some a =>
    simp only [hf] at h
    cases hu : updateAgreementsWhere db (fun x => x.id == agId)
        (effectiveF now) with
    | error e => rw [hu] at h; cases h
    | ok db1 =>
      simp only [hu] at h
      have hinv1 : Inv db1 := by
        refine inv_updateWhere hInv hu (fun x => rfl) (fun x => rfl) ?_
        intro x t ht
        simp [effectiveF, ht]
      cases hfb : a.fromBrokerId with
      | none => simp only [hfb] at h; cases h
      | some fb =>
        cases htb : a.toBrokerId with
        | none => simp only [hfb, htb] at h; cases h
        | some tb =>
          simp only [hfb, htb] at h
          cases h
          exact hinv1

theorem inv_esign {db : DB} {agId : Nat} {key topic : String}
    {actor : Option Nat} {now : Nat} {db' : DB} (hInv : Inv db)
    (h : handleEsignCompletion db agId key actor topic now = Except.ok db') : Inv db' := by
  unfold handleEsignCompletion at h
  by_cases hk : (key == "") = true
  · rw [if_pos hk] at h; cases h
  · rw [if_neg hk] at h
    by_cases hdup : db.idempotency.contains key = true
    · rw [if_pos hdup] at h
      cases h
      exact hInv
    · rw [if_neg hdup] at h
      have hinv0 : Inv { db with idempotency := db.idempotency ++ [key] } :=
        inv_congr hInv rfl rfl rfl (Nat.le_refl _)
      cases hm : markAgreementEffective { db with idempotency := db.idempotency ++ [key] }
          agId now with
      | error e => rw [hm] at h; cases h
      | ok r =>
        obtain ⟨t0, fb, tb, db1⟩ := r
        simp only [hm] at h
        have hinv1 : Inv db1 := inv_markEffective hinv0 hm
        cases he : insertTimelineEventChecked db1 agId EvType.ESIGN_COMPLETED actor
            (some (timelineBrokerFor db1 fb tb actor)) now with
        | error e => rw [he] at h; cases h
        | ok q =>
          obtain ⟨s1, db2⟩ := q
          simp only [he] at h
          cases h
          exact inv_congr (inv_insertEvent hinv1 he) rfl rfl rfl (Nat.le_refl _)

theorem inv_transition {db : DB} {agId : Nat} {actor : Option Nat} {next : AgStatus}
    {now : Nat} {db' : DB} (hInv : Inv db)
    (h : statusTransition db agId actor next now = Except.ok db') : Inv db' := by
  unfold statusTransition at h
  cases hf : findAgreement db.agreements agId with
  | none => rw [hf] at h; cases h
  | some a =>
    simp only [hf] at h
    cases hfb : a.fromBrokerId with
    | none => simp only [hfb] at h; cases h
    | some fb =>
      cases htb : a.toBrokerId with
      | none => simp only [hfb, htb] at h; cases h
      | some tb =>
        simp only [hfb, htb] at h
        by_cases hv : agreement_validate_transition a.status next = false
        · rw [if_pos hv] at h; cases h
        · rw [if_neg hv] at h
          cases hac : actor with
          | none => simp only [hac] at h; cases h
          | some u =>
            simp only [hac] at h
            cases hu : updateAgreementsWhere db (fun x => x.id == agId)
                (statusF next (some u) now) with
            | error e => rw [hu] at h; cases h
            | ok db1 =>
              simp only [hu] at h
              have hinv1 : Inv db1 :=
                inv_updateWhere hInv hu (fun x => rfl) (fun x => rfl) (fun x t ht => ht)
              cases he : insertTimelineEventChecked db1 agId EvType.AGREEMENT_STATUS_CHANGED
                  (some u) (some (timelineBrokerFor db1 fb tb (some u))) now with
              | error e => rw [he] at h; cases h
              | ok q =>
                obtain ⟨s1, db2⟩ := q
                simp only [he] at h
                cases h
                exact inv_congr (inv_insertEvent hinv1 he) rfl rfl rfl (Nat.le_refl _)

theorem inv_getPii {db : DB} {agId actor now : Nat} {r : List Contact × DB}
    (hInv : Inv db) (h : getPiiContact db agId actor now = Except.ok r) : Inv r.2 := by
  unfold getPiiContact at h
  cases hf : findAgreement db.agreements agId with
  | none => rw [hf] at h; cases h
  | some a =>
    simp only [hf] at h
    by_cases hs : (a.status == AgStatus.effective) = false
    · rw [if_pos hs] at h; cases h
    · rw [if_neg hs] at h
      cases heff : a.effectiveAt with
      | none => simp only [heff] at h; cases h
      | some t =>
        simp only [heff] at h
        by_cases hlt : now < t
        · rw [if_pos hlt] at h; cases h
        · rw [if_neg hlt] at h
          cases hu : updateAgreementsWhere db
              (fun x => x.id == agId && x.piiFirstAccessTime.isNone)
              (piiTouchF now) with
          | error e => rw [hu] at h; cases h
          | ok db1 =>
            simp only [hu] at h
            cases h
            have hinv1 : Inv db1 :=
              inv_updateWhere hInv hu (fun x => rfl) (fun x => rfl) (fun x t' ht' => ht')
            obtain ⟨hamem, haid⟩ := findAgreement_mem hf
            obtain ⟨hdb1, -, -⟩ := updateAgreementsWhere_ok hu
            refine ⟨hinv1.checksOK, hinv1.idsLt, hinv1.idsNodup, hinv1.seqOK,
              hinv1.eventsFK, ?_⟩
            intro u hu' hact
            rcases List.mem_append.mp hu' with hu' | hu'
            · exact hinv1.auditOK u hu' hact
            · rcases List.mem_singleton.mp hu' with rfl
              refine ⟨(if (a.id == agId && a.piiFirstAccessTime.isNone) then
                  { a with piiFirstAccessTime := some now } else a), ?_, ?_, t, ?_, ?_⟩
              · rw [hdb1]
                exact mapWhere_mem_of_mem hamem
              · by_cases hp : (a.id == agId && a.piiFirstAccessTime.isNone) = true
                · rw [if_pos hp]; exact haid.symm
                · rw [if_neg hp]; exact haid.symm
              · by_cases hp : (a.id == agId && a.piiFirstAccessTime.isNone) = true
                · rw [if_pos hp]; exact heff
                · rw [if_neg hp]; exact heff
              · exact Nat.le_of_not_lt hlt

theorem inv_dcreate {db : DB} {ownerId agId now : Nat} {r : Dispute × DB}
    (hInv : Inv db) (h : disputeCreate db ownerId agId now = Except.ok r) : Inv r.2 := by
  unfold disputeCreate at h
  cases hf : findAgreement db.agreements agId with
  | none => rw [hf] at h; cases h
  | some a =>
    simp only [hf] at h
    cases hr : db.requests.find? (fun x => x.id == a.referralId) with
    | none => simp only [hr] at h; cases h
    | some rr =>
      simp only [hr] at h
      by_cases ho : (rr.createdByUserId == ownerId) = false
      · rw [if_pos ho] at h; cases h
      · rw [if_neg ho] at h
        cases h
        exact inv_congr hInv rfl rfl rfl (Nat.le_succ _)

theorem inv_dresolve {db : DB} {ownerId dId now : Nat} {r : Dispute × DB}
    (hInv : Inv db) (h : disputeResolve db ownerId dId now = Except.ok r) : Inv r.2 := by
  unfold disputeResolve at h
  cases hfd : db.disputes.find? (fun d => d.id == dId) with
  | none => rw [hfd] at h; cases h
  | some d =>
    simp only [hfd] at h
    by_cases how : disputeOwned db d ownerId = false
    · rw [if_pos how] at h; cases h
    · rw [if_neg how] at h
      by_cases hres : (d.status == DStatus.resolved) = true
      · rw [if_pos hres] at h; cases h
      · rw [if_neg hres] at h
        cases hu : updateAgreementsWhere db
            (fun a => a.id == d.agreementId && !(a.status == AgStatus.disputed))
            disputedF with
        | error e => rw [hu] at h; cases h
        | ok db1 =>
          simp only [hu] at h
          cases h
          exact inv_congr
            (inv_updateWhere hInv hu (fun x => rfl) (fun x => rfl) (fun x t ht => ht))
            rfl rfl rfl (Nat.le_refl _)

theorem inv_invoice {db : DB} {agId : Nat} {st : String} {db' : DB}
    (hInv : Inv db) (h : insertInvoice db agId st = Except.ok db') : Inv db' := by
  unfold insertInvoice at h
  cases hf : findAgreement db.agreements agId with
  | none => rw [hf] at h; cases h
  | some a =>
    simp only [hf] at h
    cases h
    exact inv_congr hInv rfl rfl rfl (Nat.le_succ _)

theorem inv_pcontact {db : DB} {agId : Nat} {nm em ph : String} {db' : DB}
    (hInv : Inv db) (h : insertPiiContact db agId nm em ph = Except.ok db') : Inv db' := by
  unfold insertPiiContact at h
  cases hf : findAgreement db.agreements agId with
  | none => rw [hf] at h; cases h
  | some a =>
    simp only [hf] at h
    by_cases hdup : db.piiContacts.any (fun c => c.agreementId == agId) = true
    · rw [if_pos hdup] at h; cases h
    · rw [if_neg hdup] at h
      cases h
      exact inv_congr hInv rfl rfl rfl (Nat.le_refl _)

theorem inv_createFromMatch {db : DB} {matchId requestId candidateUserId acceptedBy now : Nat}
    {r : AgreementRecord × DB} (hInv : Inv db)
    (h : createFromMatch db matchId requestId candidateUserId acceptedBy now =
      Except.ok r) : Inv r.2 := by
  unfold createFromMatch at h
  cases hm : db.matchRows.find? (fun m => m.id == matchId) with
  | none => rw [hm] at h; cases h
  | some m =>
    simp only [hm] at h
    by_cases h1 : (m.requestId == requestId) = false
    · rw [if_pos h1] at h; cases h
    · rw [if_neg h1] at h
      by_cases h2 : (m.candidateUserId == candidateUserId) = false
      · rw [if_pos h2] at h; cases h
      · rw [if_neg h2] at h
        by_cases h3 : (m.state == MState.accepted) = false
        · rw [if_pos h3] at h; cases h
        · rw [if_neg h3] at h
          cases hr : db.requests.find? (fun x => x.id == requestId) with
          | none => simp only [hr] at h; cases h
          | some rr =>
            simp only [hr] at h
            cases ho : db.users.find? (fun u => u.id == rr.createdByUserId) with
            | none => simp only [ho] at h; cases h
            | some owner =>
              cases hc : db.users.find? (fun u => u.id == candidateUserId) with
              | none => simp only [ho, hc] at h; cases h
              | some cand =>
                simp only [ho, hc] at h
                cases hob : owner.brokerId with
                | none => simp only [hob] at h; cases h
                | some ob =>
                  simp only [hob] at h
                  cases hcb : cand.brokerId with
                  | none => simp only [hcb] at h; cases h
                  | some cb =>
                    simp only [hcb] at h
                    cases hex : findActiveAgreement db.agreements requestId with
                    | some ex =>
                      simp only [hex] at h
                      cases h
                      exact hInv
                    | none =>
                      simp only [hex] at h
                      cases hi : insertAgreementChecked db (fun i =>
                          { id := i, referralId := requestId,
                            fromBrokerId := some ob, toBrokerId := some cb,
                            status := AgStatus.pending_signature, effectiveAt := none,
                            piiFirstAccessTime := none, eventSeq := 0,
                            feeRate := 30, protectDays := 90,
                            statusUpdatedAt := now, statusUpdatedBy := none,
                            updatedAt := now }) with
                      | error e => rw [hi] at h; cases h
                      | ok p =>
                        obtain ⟨row, db1⟩ := p
                        simp only [hi] at h
                        have hinv1 : Inv db1 := inv_insertAgreement hInv rfl rfl hi
                        have hinv2 : Inv (if rr.status == "open" then
                            { db1 with requests := db1.requests.map (fun x =>
                                if x.id == requestId && x.status == "open" then
                                  { x with status := "matched" } else x) }
                            else db1) := by
                          by_cases hopen : (rr.status == "open") = true
                          · rw [if_pos hopen]
                            exact inv_congr hinv1 rfl rfl rfl (Nat.le_refl _)
                          · rw [if_neg hopen]
                            exact hinv1
                        cases he : insertTimelineEventChecked
                            (if rr.status == "open" then
                              { db1 with requests := db1.requests.map (fun x =>
                                  if x.id == requestId && x.status == "open" then
                                    { x with status := "matched" } else x) }
                              else db1) row.id EvType.AGREEMENT_CREATED (some acceptedBy)
                            (some (timelineBrokerFor
                              (if rr.status == "open" then
                                { db1 with requests := db1.requests.map (fun x =>
                                    if x.id == requestId && x.status == "open" then
                                      { x with status := "matched" } else x) }
                                else db1) ob cb (some acceptedBy))) now with
                        | error e => rw [he] at h; cases h
                        | ok q =>
                          obtain ⟨s1, db3⟩ := q
                          simp only [he] at h
                          cases h
                          exact inv_congr (inv_insertEvent hinv2 he) rfl rfl rfl
                            (Nat.le_refl _)

theorem inv_matchUpdate {db : DB} {matchId candidateId : Nat} {newState : MState}
    {now : Nat} {r : MatchUpdateResult × DB} (hInv : Inv db)
    (h : matchUpdateState db matchId candidateId newState now = Except.ok r) :
    Inv r.2 := by
  unfold matchUpdateState at h
  cases hm : db.matchRows.find? (fun m => m.id == matchId) with
  | none => rw [hm] at h; cases h
  | some m =>
    simp only [hm] at h
    by_cases h1 : (m.candidateUserId == candidateId) = false
    · rw [if_pos h1] at h; cases h
    · rw [if_neg h1] at h
      by_cases h2 : (newState == MState.accepted || newState == MState.declined) = false
      · rw [if_pos h2] at h; cases h
      · rw [if_neg h2] at h
        by_cases h3 : (m.state == newState) = true
        · rw [if_pos h3] at h
          cases h
          exact hInv
        · rw [if_neg h3] at h
          by_cases h4 : (newState == MState.accepted) = true
          · rw [if_pos h4] at h
            by_cases h5 : (m.state == MState.accepted) = true
            · rw [if_pos h5] at h
              cases hc : createFromMatch db matchId m.requestId m.candidateUserId
                  m.candidateUserId now with
              | error e => rw [hc] at h; cases h
              | ok p =>
                obtain ⟨rec, db1⟩ := p
                simp only [hc] at h
                have hinv1 : Inv db1 := inv_createFromMatch hInv hc
                cases hrf : db1.matchRows.find? (fun x => x.id == matchId) with
                | none => simp only [hrf] at h; cases h
                | some refreshed =>
                  simp only [hrf] at h
                  cases h
                  exact hinv1
            · rw [if_neg h5] at h
              by_cases h6 : (m.state == MState.invited) = true
              · rw [if_pos h6] at h
                have hinvA : Inv { db with matchRows := db.matchRows.map (fun x =>
                    if x.id == matchId then { x with state := MState.accepted } else x) } :=
                  inv_congr hInv rfl rfl rfl (Nat.le_refl _)
                cases hc : createFromMatch { db with matchRows := db.matchRows.map (fun x =>
                    if x.id == matchId then { x with state := MState.accepted } else x) }
                    matchId m.requestId m.candidateUserId m.candidateUserId now with
                | error e => rw [hc] at h; cases h
                | ok p =>
                  obtain ⟨rec, db1⟩ := p
                  simp only [hc] at h
                  have hinv1 : Inv db1 := inv_createFromMatch hinvA hc
                  cases hrf : db1.matchRows.find? (fun x => x.id == matchId) with
                  | none => simp only [hrf] at h; cases h
                  | some refreshed =>
                    simp only [hrf] at h
                    cases h
                    exact hinv1
              · rw [if_neg h6] at h; cases h
          · rw [if_neg h4] at h
            cases hrf : (({ db with matchRows := db.matchRows.map (fun x =>
                if x.id == matchId then { x with state := newState } else x) } :
                DB)).matchRows.find? (fun x => x.id == matchId) with
            | none => simp only [hrf] at h; cases h
            | some updated =>
              simp only [hrf] at h
              cases h
              exact inv_congr hInv rfl rfl rfl (Nat.le_refl _)

theorem inv_draftCreate {db : DB}
    {userId requestId refBroker refeBroker feeRate protectDays now : Nat}
    {r : AgreementRecord × DB} (hInv : Inv db)
    (h : agreementCreateDraft db userId requestId refBroker refeBroker feeRate
      protectDays now = Except.ok r) : Inv r.2 := by
  unfold agreementCreateDraft at h
  cases hr : db.requests.find? (fun x => x.id == requestId) with
  | none => rw [hr] at h; cases h
  | some rr =>
    simp only [hr] at h
    by_cases ho : (rr.createdByUserId == userId) = false
    · rw [if_pos ho] at h; cases h
    · rw [if_neg ho] at h
      cases hi : insertAgreementChecked db (fun i =>
          { id := i, referralId := requestId,
            fromBrokerId := some refBroker, toBrokerId := some refeBroker,
            status := AgStatus.draft, effectiveAt := none,
            piiFirstAccessTime := none, eventSeq := 0,
            feeRate := feeRate, protectDays := protectDays,
            statusUpdatedAt := now, statusUpdatedBy := none, updatedAt := now }) with
      | error e => rw [hi] at h; cases h
      | ok p =>
        obtain ⟨row, db1⟩ := p
        simp only [hi] at h
        have hinv1 : Inv db1 := inv_insertAgreement hInv rfl rfl hi
        cases he : insertTimelineEventChecked db1 row.id EvType.AGREEMENT_CREATED none
            (some (timelineBrokerFor db1 refBroker refeBroker none)) now with
        | error e => rw [he] at h; cases h
        | ok q =>
          obtain ⟨s1, db2⟩ := q
          simp only [he] at h
          cases h
          exact inv_congr (inv_insertEvent hinv1 he) rfl rfl rfl (Nat.le_refl _)

/-- Every core transaction preserves the storage invariant. -/
theorem step_inv {db db' : DB} (hs : Step db db') (hInv : Inv db) : Inv db' := by
  cases hs with
  | matchUpdate mId cId st now h =>
    unfold afterP at h
    cases hop : matchUpdateState db mId cId st now with
    | error e => rw [hop] at h; cases h
    | ok p =>
      rw [hop] at h
      cases h
      exact inv_matchUpdate hInv hop
  | transition agId actor next now h =>
    unfold afterD at h
    cases hop : statusTransition db agId actor next now with
    | error e => rw [hop] at h; cases h
    | ok d =>
      rw [hop] at h
      cases h
      exact inv_transition hInv hop
  | esign agId key actor topic now h =>
    unfold afterD at h
    cases hop : handleEsignCompletion db agId key actor topic now with
    | error e => rw [hop] at h; cases h
    | ok d =>
      rw [hop] at h
      cases h
      exact inv_esign hInv hop
  | pii agId actor now h =>
    unfold afterP at h
    cases hop : getPiiContact db agId actor now with
    | error e => rw [hop] at h; cases h
    | ok p =>
      rw [hop] at h
      cases h
      exact inv_getPii hInv hop
  | dcreate ownerId agId now h =>
    unfold afterP at h
    cases hop : disputeCreate db ownerId agId now with
    | error e => rw [hop] at h; cases h
    | ok p =>
      rw [hop] at h
      cases h
      exact inv_dcreate hInv hop
  | dresolve ownerId dId now h =>
    unfold afterP at h
    cases hop : disputeResolve db ownerId dId now with
    | error e => rw [hop] at h; cases h
    | ok p =>
      rw [hop] at h
      cases h
      exact inv_dresolve hInv hop
  | creator rid fb tb now h =>
    unfold afterD at h
    cases hop : creatorInsertAgreement db rid fb tb now with
    | error e => rw [hop] at h; cases h
    | ok d =>
      rw [hop] at h
      cases h
      exact inv_creator hInv hop
  | draft userId requestId refBroker refeBroker feeRate protectDays now h =>
    unfold afterP at h
    cases hop : agreementCreateDraft db userId requestId refBroker refeBroker
        feeRate protectDays now with
    | error e => rw [hop] at h; cases h
    | ok p =>
      rw [hop] at h
      cases h
      exact inv_draftCreate hInv hop
  | writer agId ty actor brokerCtx now h =>
    unfold afterP at h
    cases hop : insertTimelineEventChecked db agId ty actor brokerCtx now with
    | error e => rw [hop] at h; cases h
    | ok p =>
      rw [hop] at h
      cases h
      exact inv_insertEvent hInv hop
  | invoice agId st h =>
    unfold afterD at h
    cases hop : insertInvoice db agId st with
    | error e => rw [hop] at h; cases h
    | ok d =>
      rw [hop] at h
      cases h
      exact inv_invoice hInv hop
  | pcontact agId nm em ph h =>
    unfold afterD at h
    cases hop : insertPiiContact db agId nm em ph with
    | error e => rw [hop] at h; cases h
    | ok d =>
      rw [hop] at h
      cases h
      exact inv_pcontact hInv hop

/-- The storage invariant holds in every reachable state. -/
theorem reachable_inv {db : DB} (h : Reachable db) : Inv db := by
  induction h with
  | init db h0 =>
    obtain ⟨hag, hev, hau, -, -, -, -, -⟩ := h0
    refine ⟨?_, ?_, ?_, ?_, ?_, ?_⟩
    · rw [hag]; rfl
    · intro a ha; rw [hag] at ha; cases ha
    · rw [hag]; exact List.nodup_nil
    · intro a ha; rw [hag] at ha; cases ha
    · intro e he; rw [hev] at he; cases he
    · intro u hu; rw [hau] at hu; cases hu
  | step db db' hr hs ih => exact step_inv hs ih

/-! ### Auxiliary lemmas for the claim theorems -/

theorem contains_append_one (l : List String) (k : String) :
    (l ++ [k]).contains k = true := by
  induction l with
  | nil => simp
  | cons x l ih => simpa using Or.inr (by simpa using ih)

theorem all_map_of {l : List Agreement} {g : Agreement → Agreement}
    {q : Agreement → Bool} (h : ∀ x ∈ l, q (g x) = true) :
    (l.map g).all q = true := by
  rw [List.all_eq_true]
  intro y hy
  obtain ⟨x, hx, rfl⟩ := List.mem_map.mp hy
  exact h x hx

/-- Activity and referral of a row only depend on `status` and
`referral_id`. -/
theorem isActive_congr {x y : Agreement} (h : x.status = y.status) :
    isActive x = isActive y := by
  unfold isActive
  rw [h]

/-- A pointwise status- and referral-preserving rewrite keeps the partial
unique index satisfied. -/
theorem uniqueActiveB_map_preserve {g : Agreement → Agreement}
    (hst : ∀ x, (g x).status = x.status)
    (href : ∀ x, (g x).referralId = x.referralId) :
    ∀ {l : List Agreement}, uniqueActiveB l = true → uniqueActiveB (l.map g) = true := by
  intro l
  induction l with
  | nil => intro; rfl
  | cons a rest ih =>
    intro hu
    have hu' : noActiveConflict a rest = true ∧ uniqueActiveB rest = true := by
      simpa [uniqueActiveB] using hu
    have hconf : noActiveConflict (g a) (rest.map g) = true := by
      unfold noActiveConflict at hu' ⊢
      rw [isActive_congr (hst a), href a]
      rcases Bool.or_eq_true_iff.mp hu'.1 with hla | hall
      · rw [hla]; rfl
      · refine Bool.or_eq_true_iff.mpr (Or.inr ?_)
        rw [List.all_eq_true] at hall ⊢
        intro y hy
        obtain ⟨x, hx, rfl⟩ := List.mem_map.mp hy
        rw [isActive_congr (hst x), href x]
        exact hall x hx
    have : uniqueActiveB (g a :: rest.map g) =
        (noActiveConflict (g a) (rest.map g) && uniqueActiveB (rest.map g)) := rfl
    rw [List.map_cons, this, hconf, ih hu'.2]
    rfl

/-- Appending an active row for a referral that already has an active row
breaks the partial unique index. -/
theorem uniqueActiveB_append_conflict {l : List Agreement} {row : Agreement}
    (hact : isActive row = true)
    (h : ∃ a ∈ l, a.referralId = row.referralId ∧ isActive a = true) :
    uniqueActiveB (l ++ [row]) = false := by
  induction l with
  | nil =>
    obtain ⟨a, ha, -⟩ := h
    cases ha
  | cons x rest ih =>
    have hstep : uniqueActiveB ((x :: rest) ++ [row]) =
        (noActiveConflict x (rest ++ [row]) && uniqueActiveB (rest ++ [row])) := rfl
    rw [hstep]
    obtain ⟨a, ha, href, haact⟩ := h
    rcases List.mem_cons.mp ha with rfl | harest
    · have hconf : noActiveConflict a (rest ++ [row]) = false := by
        unfold noActiveConflict
        rw [haact]
        simp only [Bool.not_true, Bool.false_or]
        rw [List.all_append]
        have : ([row].all fun b => !(isActive b && b.referralId == a.referralId)) = false := by
          have hr : (row.referralId == a.referralId) = true := by
            rw [href]; simp
          simp [List.all_cons, hact, hr]
        rw [this, Bool.and_false]
      rw [hconf, Bool.false_and]
    · have := ih ⟨a, harest, href, haact⟩
      rw [this, Bool.and_false]

theorem reachable_dbSeed : Reachable dbSeed :=
  Reachable.init _ ⟨rfl, rfl, rfl, rfl, rfl, rfl, rfl, rfl⟩

theorem reachable_dbAccepted : Reachable dbAccepted :=
  Reachable.step _ _ reachable_dbSeed
    (Step.matchUpdate _ _ 4 2 MState.accepted 5 (by decide))

theorem reachable_dbContact : Reachable dbContact :=
  Reachable.step _ _ reachable_dbAccepted
    (Step.pcontact _ _ 100 "Ann Client" "ann@example.com" "555" (by decide))

theorem reachable_dbEffective : Reachable dbEffective :=
  Reachable.step _ _ reachable_dbContact
    (Step.esign _ _ 100 "k1" (some 2) "" 5 (by decide))

theorem reachable_dbPiiRead : Reachable dbPiiRead :=
  Reachable.step _ _ reachable_dbEffective
    (Step.pii _ _ 100 1 5 (by decide))

theorem reachable_dbInvoiced : Reachable dbInvoiced :=
  Reachable.step _ _ reachable_dbEffective
    (Step.invoice _ _ 100 "open" (by decide))

theorem reachable_dbDisputed : Reachable dbDisputed :=
  Reachable.step _ _ reachable_dbInvoiced
    (Step.dcreate _ _ 1 100 6 (by decide))

theorem reachable_dbSeed2 : Reachable dbSeed2 :=
  Reachable.init _ ⟨rfl, rfl, rfl, rfl, rfl, rfl, rfl, rfl⟩

theorem reachable_dbDraft : Reachable dbDraft :=
  Reachable.step _ _ reachable_dbSeed2
    (Step.draft _ _ 1 5 10 11 30 90 4 (by decide))

theorem reachable_dbDraftDisputed : Reachable dbDraftDisputed :=
  Reachable.step _ _ reachable_dbDraft
    (Step.dcreate _ _ 1 100 6 (by decide))

theorem checks_split {l : List Agreement} (h : agreementsChecksB l = true) :
    l.all chkEffectiveAtPair = true ∧ uniqueActiveB l = true := by
  simpa [agreementsChecksB] using h

theorem findAgreement_mapWhere_hit {p : Agreement → Bool} {f : Agreement → Agreement}
    {l : List Agreement} {i : Nat} {a : Agreement}
    (hf : findAgreement l i = some a) (hid : ∀ x, (f x).id = x.id)
    (hpa : p a = true) :
    findAgreement (mapWhere p f l) i = some (f a) := by
  rw [findAgreement_mapWhere hid, hf]
  show some (if p a then f a else a) = some (f a)
  rw [if_pos hpa]

theorem findAgreement_update_hit {db : DB} {p : Agreement → Bool}
    {f : Agreement → Agreement} {db' : DB} {agId : Nat} {a : Agreement}
    (hu : updateAgreementsWhere db p f = Except.ok db')
    (hf : findAgreement db.agreements agId = some a)
    (hid : ∀ x, (f x).id = x.id) (hpa : p a = true) :
    findAgreement db'.agreements agId = some (f a) := by
  obtain ⟨hdb, -, -⟩ := updateAgreementsWhere_ok hu
  subst hdb
  exact findAgreement_mapWhere_hit hf hid hpa

/-- Success shape of `markAgreementEffective`. -/
theorem markAgreementEffective_ok {db : DB} {agId now : Nat} {r : Nat × Nat × Nat × DB}
    (h : markAgreementEffective db agId now = Except.ok r) :
    ∃ a, findAgreement db.agreements agId = some a ∧
      a.fromBrokerId = some r.2.1 ∧ a.toBrokerId = some r.2.2.1 ∧
      r.1 = a.effectiveAt.getD now ∧
      r.2.2.2 =
        { db with
          agreements := mapWhere (fun x => x.id == agId) (effectiveF now) db.agreements } := by
  unfold markAgreementEffective at h
  cases hf : findAgreement db.agreements agId with
  | none => rw [hf] at h; cases h
  | some a =>
    simp only [hf] at h
    cases hu : updateAgreementsWhere db (fun x => x.id == agId)
        (effectiveF now) with
    | error e => rw [hu] at h; cases h
    | ok db1 =>
      simp only [hu] at h
      cases hfb : a.fromBrokerId with
      | none => simp only [hfb] at h; cases h
      | some fb =>
        cases htb : a.toBrokerId with
        | none => simp only [hfb, htb] at h; cases h
        | some tb =>
          simp only [hfb, htb] at h
          cases h
          obtain ⟨hdb1, -, -⟩ := updateAgreementsWhere_ok hu
          exact ⟨a, rfl, hfb, htb, rfl, hdb1⟩

theorem countType_append_hit (evs : List TimelineEvent) (ev : TimelineEvent)
    (agId : Nat) (ty : EvType) (h : (ev.agreementId == agId && ev.type == ty) = true) :
    countType (evs ++ [ev]) agId ty = countType evs agId ty + 1 := by
  unfold countType
  rw [List.filter_append]
  simp [List.filter_cons, h]

theorem countTopic_append_hit (ob : List OutboxMsg) (msg : OutboxMsg) (t : String)
    (h : (msg.topic == t) = true) :
    countTopic (ob ++ [msg]) t = countTopic ob t + 1 := by
  unfold countTopic
  rw [List.filter_append]
  simp [List.filter_cons, h]

theorem handleEsign_replay (db : DB) (agId : Nat) (key topic : String)
    (actor : Option Nat) (now : Nat)
    (hk : (key == "") = false) (hc : db.idempotency.contains key = true) :
    handleEsignCompletion db agId key actor topic now = Except.ok db := by
  unfold handleEsignCompletion
  rw [if_neg (by simp [hk])]
  rw [if_pos hc]

/-- **C3** — E-sign idempotence: if `HandleEsignCompletion` committed once
for a fresh idempotency key, the second invocation with the same key
returns success and produces exactly the state of the first (no new
timeline event, no new outbox row, no agreement change); after the pair
of calls the agreement is `effective`, and the calls added exactly one
`ESIGN_COMPLETED` timeline row and exactly one outbox row on the
`agreement.effective` (or caller-supplied) topic. -/
theorem C3_esign_idempotent :
    ∀ (db : DB) (agId : Nat) (key : String) (actor : Option Nat) (topic : String)
      (now1 now2 : Nat) (db1 : DB),
      db.idempotency.contains key = false →
      handleEsignCompletion db agId key actor topic now1 = Except.ok db1 →
      handleEsignCompletion db1 agId key actor topic now2 = Except.ok db1 ∧
      (∃ a1, findAgreement db1.agreements agId = some a1 ∧
        a1.status = AgStatus.effective) ∧
      countType db1.events agId EvType.ESIGN_COMPLETED =
        countType db.events agId EvType.ESIGN_COMPLETED + 1 ∧
      countTopic db1.outbox (if topic == "" then "agreement.effective" else topic) =
        countTopic db.outbox (if topic == "" then "agreement.effective" else topic) + 1 := by
  intro db agId key actor topic now1 now2 db1 hnew h
  unfold handleEsignCompletion at h
  by_cases hk : (key == "") = true
  · rw [if_pos hk] at h; cases h
  · rw [if_neg hk] at h
    rw [if_neg (by rw [hnew]; exact Bool.false_ne_true)] at h
    cases hm : markAgreementEffective { db with idempotency := db.idempotency ++ [key] }
        agId now1 with
    | error e => rw [hm] at h; cases h
    | ok r =>
      obtain ⟨t0, fb, tb, dbm⟩ := r
      simp only [hm] at h
      obtain ⟨a, hf, -, -, -, hdbm⟩ := markAgreementEffective_ok hm
      have hdbm' : dbm =
          { db with
            idempotency := db.idempotency ++ [key],
            agreements :=
              mapWhere (fun x => x.id == agId) (effectiveF now1) db.agreements } := hdbm
      subst hdbm'
      cases he : insertTimelineEventChecked _ agId EvType.ESIGN_COMPLETED actor
          (some (timelineBrokerFor _ fb tb actor)) now1 with
      | error e => rw [he] at h; cases h
      | ok q =>
        obtain ⟨s1, db2⟩ := q
        simp only [he] at h
        cases h
        obtain ⟨a2, b2, hf2, -, -, hdb2, -, -⟩ := insertTimelineEventChecked_ok he
        subst hdb2
        have hpa : ((a.id == agId) : Bool) = true := by
          simpa using (findAgreement_mem hf).2
        have hfa : findAgreement (mapWhere (fun x => x.id == agId) (effectiveF now1)
            db.agreements) agId = some (effectiveF now1 a) :=
          findAgreement_mapWhere_hit hf (fun x => rfl) hpa
        have ha2 : a2 = effectiveF now1 a := by
          have hx := hf2
          rw [hfa] at hx
          exact (Option.some.inj hx).symm
        have hpa2 : ((a2.id == agId) : Bool) = true := by
          simpa using (findAgreement_mem hf2).2
        refine ⟨?_, ?_, ?_, ?_⟩
        · exact handleEsign_replay _ agId key topic actor now2
            (by simpa using hk) (contains_append_one db.idempotency key)
        · refine ⟨bump a2, ?_, ?_⟩
          · exact findAgreement_mapWhere_hit hf2 (fun x => rfl) hpa2
          · rw [ha2]
            rfl
        · exact countType_append_hit db.events _ agId EvType.ESIGN_COMPLETED
            (by simp [mkEvent])
        · exact countTopic_append_hit db.outbox _ _ (by simp)

/-- Witness for C3 at the concrete e-sign of agreement 100 with key
`"k1"`. -/
theorem C3_esign_idempotent_witness :
    handleEsignCompletion dbEffective 100 "k1" (some 2) "" 7 = Except.ok dbEffective ∧
    (∃ a1, findAgreement dbEffective.agreements 100 = some a1 ∧
      a1.status = AgStatus.effective) ∧
    countType dbEffective.events 100 EvType.ESIGN_COMPLETED =
      countType dbContact.events 100 EvType.ESIGN_COMPLETED + 1 ∧
    countTopic dbEffective.outbox (if ("" : String) == "" then "agreement.effective"
        else "") =
      countTopic dbContact.outbox (if ("" : String) == "" then "agreement.effective"
        else "") + 1 :=
  C3_esign_idempotent dbContact 100 "k1" (some 2) "" 5 7 dbEffective (by decide) rfl

/-- **C8** — Dispute coupling (I9): a successful `Resolve` moves the
dispute to `resolved`, stamps `resolved_at = tx_now()`, atomically sets
the agreement's status to `disputed` (where not already) and invalidates
every invoice of the agreement whose status is outside
`{paid, written_off}`; resolving an owned, already-resolved dispute fails
with BadStatus (and, the transaction having aborted, changes nothing). -/
theorem C8_dispute_coupling :
    (∀ (db : DB) (ownerId dId now : Nat) (rec : Dispute) (db' : DB),
      disputeResolve db ownerId dId now = Except.ok (rec, db') →
      rec.status = DStatus.resolved ∧ rec.resolvedAt = some now ∧
      rec ∈ db'.disputes ∧
      (∀ a ∈ db'.agreements, a.id = rec.agreementId → a.status = AgStatus.disputed) ∧
      (∀ i ∈ db'.invoices, i.agreementId = rec.agreementId →
        i.status ≠ "paid" → i.status ≠ "written_off" → i.isInvalidated = true)) ∧
    (∀ (db : DB) (ownerId dId now : Nat) (d : Dispute),
      db.disputes.find? (fun x => x.id == dId) = some d →
      disputeOwned db d ownerId = true → d.status = DStatus.resolved →
      disputeResolve db ownerId dId now = Except.error DBErr.badStatus) := by
  constructor
  · intro db ownerId dId now rec db' h
    unfold disputeResolve at h
    cases hfd : db.disputes.find? (fun x => x.id == dId) with
    | none => rw [hfd] at h; cases h
    | some d =>
      simp only [hfd] at h
      by_cases how : disputeOwned db d ownerId = false
      · rw [if_pos how] at h; cases h
      · rw [if_neg how] at h
        by_cases hres : (d.status == DStatus.resolved) = true
        · rw [if_pos hres] at h; cases h
        · rw [if_neg hres] at h
          cases hu : updateAgreementsWhere db
              (fun a => a.id == d.agreementId && !(a.status == AgStatus.disputed))
              disputedF with
          | error e => rw [hu] at h; cases h
          | ok db1 =>
            simp only [hu] at h
            cases h
            obtain ⟨hdb1, -, -⟩ := updateAgreementsWhere_ok hu
            subst hdb1
            refine ⟨rfl, rfl, ?_, ?_, ?_⟩
            · have hdmem : d ∈ db.disputes := List.mem_of_find?_eq_some hfd
              have hdid : ((d.id == dId) : Bool) = true := by
                simpa using List.find?_some hfd
              exact List.mem_map.mpr ⟨d, hdmem, by simp [hdid]⟩
            · intro a ha haid
              have haid' : a.id = d.agreementId := haid
              obtain ⟨c, hc, hcx⟩ := mem_mapWhere ha
              by_cases hcd : (c.status == AgStatus.disputed) = true
              · have hp : (c.id == d.agreementId && !(c.status == AgStatus.disputed)) =
                    false := by
                  rw [hcd]
                  simp
                rw [hcx, if_neg (by rw [hp]; exact Bool.false_ne_true)]
                have : c.status = AgStatus.disputed := by simpa using hcd
                exact this
              · have hcid : c.id = d.agreementId := by
                  rw [← haid', hcx]
                  by_cases hp : (c.id == d.agreementId && !(c.status == AgStatus.disputed))
                      = true
                  · rw [if_pos hp]; rfl
                  · rw [if_neg hp]
                have hp : (c.id == d.agreementId && !(c.status == AgStatus.disputed)) =
                    true := by
                  have h1 : ((c.id == d.agreementId) : Bool) = true := by
                    simpa using hcid
                  have h2 : ((c.status == AgStatus.disputed) : Bool) = false := by
                    cases hc2 : (c.status == AgStatus.disputed)
                    · rfl
                    · exact absurd hc2 hcd
                  rw [h1, h2]
                  rfl
                rw [hcx, if_pos hp]
                rfl
            · intro i hi hiid hip hiw
              have hiid' : i.agreementId = d.agreementId := hiid
              obtain ⟨c, hc, hcx⟩ := List.mem_map.mp hi
              have hcid : c.agreementId = d.agreementId := by
                rw [← hiid', ← hcx]
                by_cases hp : (c.agreementId == d.agreementId &&
                    !(c.status == "paid" || c.status == "written_off")) = true
                · rw [if_pos hp]
                · rw [if_neg hp]
              have hcst : c.status = i.status := by
                rw [← hcx]
                by_cases hp : (c.agreementId == d.agreementId &&
                    !(c.status == "paid" || c.status == "written_off")) = true
                · rw [if_pos hp]
                · rw [if_neg hp]
              have hp : (c.agreementId == d.agreementId &&
                  !(c.status == "paid" || c.status == "written_off")) = true := by
                have h1 : ((c.agreementId == d.agreementId) : Bool) = true := by
                  simpa using hcid
                have h2 : ((c.status == "paid" || c.status == "written_off") : Bool) =
                    false := by
                  have hp' : c.status ≠ "paid" := by rw [hcst]; exact hip
                  have hw' : c.status ≠ "written_off" := by rw [hcst]; exact hiw
                  simp [hp', hw']
                rw [h1, h2]
                rfl
              rw [← hcx, if_pos hp]
  · intro db ownerId dId now d hfd how hres
    unfold disputeResolve
    rw [hfd]
    simp only
    rw [if_neg (by simp [how])]
    rw [if_pos (by rw [hres]; rfl)]

/-- Witness for C8: resolving dispute 102 on the concrete state, and the
BadStatus failure of the replay. -/
theorem C8_dispute_coupling_witness :
    (recResolved.status = DStatus.resolved ∧ recResolved.resolvedAt = some 9 ∧
      recResolved ∈ dbResolved.disputes ∧
      (∀ a ∈ dbResolved.agreements, a.id = recResolved.agreementId →
        a.status = AgStatus.disputed) ∧
      (∀ i ∈ dbResolved.invoices, i.agreementId = recResolved.agreementId →
        i.status ≠ "paid" → i.status ≠ "written_off" → i.isInvalidated = true)) ∧
    disputeResolve dbResolved 1 102 11 = Except.error DBErr.badStatus := by
  constructor
  · exact C8_dispute_coupling.1 dbDisputed 1 102 9 recResolved dbResolved rfl
  · exact C8_dispute_coupling.2 dbResolved 1 102 11 recResolved (by decide) (by decide)
      (by decide)

/-- **C10** — Resolve aborts on never-effective agreements: resolving an
owned `under_review` dispute whose agreement has `effective_at = NULL`
makes the trigger's `status = 'disputed'` write violate
`chk_agreement_effective_at_pair`, so the whole transaction aborts with a
CHECK violation (and, the state being returned unchanged on error, the
dispute stays `under_review`, the agreement keeps its row and no invoice
is invalidated). -/
theorem C10_resolve_never_effective :
    ∀ (db : DB) (ownerId dId now : Nat) (d : Dispute) (a : Agreement),
      Reachable db →
      db.disputes.find? (fun x => x.id == dId) = some d →
      disputeOwned db d ownerId = true →
      d.status = DStatus.under_review →
      findAgreement db.agreements d.agreementId = some a →
      a.effectiveAt = none →
      disputeResolve db ownerId dId now = Except.error DBErr.checkViolation := by
  intro db ownerId dId now d a hr hfd how hur hfa heff
  have hInv := reachable_inv hr
  have hchk := (checks_split hInv.checksOK).1
  obtain ⟨hamem, haid⟩ := findAgreement_mem hfa
  have hchka := (List.all_eq_true.mp hchk) a hamem
  have hreq : statusRequiresEffectiveAt a.status = false := by
    cases hq : statusRequiresEffectiveAt a.status
    · rfl
    · exfalso
      have := (chk_char a).mp hchka
      exact (this.mp hq) heff
  have hnd : a.status ≠ AgStatus.disputed := by
    intro hcontra
    rw [hcontra] at hreq
    cases hreq
  have hp : (a.id == d.agreementId && !(a.status == AgStatus.disputed)) = true := by
    have h1 : ((a.id == d.agreementId) : Bool) = true := by simpa using haid
    have h2 : ((a.status == AgStatus.disputed) : Bool) = false := by simpa using hnd
    rw [h1, h2]
    rfl
  have hupd : updateAgreementsWhere db
      (fun x => x.id == d.agreementId && !(x.status == AgStatus.disputed))
      disputedF =
      Except.error DBErr.checkViolation := by
    unfold updateAgreementsWhere
    have hfail : ((mapWhere (fun x => x.id == d.agreementId &&
        !(x.status == AgStatus.disputed))
        disputedF db.agreements).all
        chkEffectiveAtPair) = false := by
      cases hall : ((mapWhere (fun x => x.id == d.agreementId &&
          !(x.status == AgStatus.disputed))
          disputedF db.agreements).all
          chkEffectiveAtPair) with
      | false => rfl
      | true =>
        exfalso
        have hmem := mapWhere_mem_of_mem
          (p := fun x => x.id == d.agreementId && !(x.status == AgStatus.disputed))
          (f := disputedF) hamem
        rw [if_pos hp] at hmem
        have hca := (List.all_eq_true.mp hall) _ hmem
        exact ((chk_char _).mp hca).mp rfl heff
    rw [if_pos hfail]
  unfold disputeResolve
  rw [hfd]
  simp only
  rw [if_neg (by simp [how])]
  rw [if_neg (by rw [hur]; exact (by simp : ¬((DStatus.under_review ==
    DStatus.resolved) = true)))]
  rw [hupd]

/-- Witness for C10: resolving the dispute on the draft agreement fails
with the CHECK violation. -/
theorem C10_resolve_never_effective_witness :
    disputeResolve dbDraftDisputed 1 101 9 = Except.error DBErr.checkViolation := by
  refine C10_resolve_never_effective dbDraftDisputed 1 101 9
    { id := 101, agreementId := 100, status := DStatus.under_review,
      resolvedAt := none, updatedAt := 6 }
    { id := 100, referralId := 5, fromBrokerId := some 10, toBrokerId := some 11,
      status := AgStatus.draft, effectiveAt := none, piiFirstAccessTime := none,
      eventSeq := 1, feeRate := 30, protectDays := 90, statusUpdatedAt := 4,
      statusUpdatedBy := none, updatedAt := 4 }
    reachable_dbDraftDisputed (by decide) (by decide) (by decide) (by decide) (by decide)

/-- **C6** — State–Time Consistency (I2): in every reachable state an
agreement's status is in `{effective, success, disputed}` exactly when its
`effective_at` is non-null, and `markAgreementEffective` sets
`status = 'effective'` and
`effective_at = COALESCE(effective_at, get_tx_timestamp())` in the same
statement. -/
theorem C6_state_time_consistency :
    (∀ db : DB, Reachable db → ∀ a ∈ db.agreements,
      (statusRequiresEffectiveAt a.status = true ↔ a.effectiveAt ≠ none)) ∧
    (∀ (db : DB) (agId now : Nat) (r : Nat × Nat × Nat × DB),
      markAgreementEffective db agId now = Except.ok r →
      ∃ a, findAgreement db.agreements agId = some a ∧
        r.1 = a.effectiveAt.getD now ∧
        findAgreement r.2.2.2.agreements agId =
          some { a with status := AgStatus.effective,
                        effectiveAt := some (a.effectiveAt.getD now) }) := by
  constructor
  · intro db hr a ha
    have hall := (checks_split (reachable_inv hr).checksOK).1
    have := (List.all_eq_true.mp hall) a ha
    exact (chk_char a).mp this
  · intro db agId now r h
    unfold markAgreementEffective at h
    cases hf : findAgreement db.agreements agId with
    | none => rw [hf] at h; cases h
    | some a =>
      simp only [hf] at h
      cases hu : updateAgreementsWhere db (fun x => x.id == agId)
          (effectiveF now) with
      | error e => rw [hu] at h; cases h
      | ok db1 =>
        simp only [hu] at h
        cases hfb : a.fromBrokerId with
        | none => simp only [hfb] at h; cases h
        | some fb =>
          cases htb : a.toBrokerId with
          | none => simp only [hfb, htb] at h; cases h
          | some tb =>
            simp only [hfb, htb] at h
            cases h
            refine ⟨a, rfl, rfl, ?_⟩
            have hpa : ((a.id == agId) : Bool) = true := by
              simpa using (findAgreement_mem hf).2
            exact findAgreement_update_hit hu hf (fun x => rfl) hpa

/-- Witness for C6 at the e-sign step of the concrete scenario. -/
theorem C6_state_time_consistency_witness :
    (∀ a ∈ dbEffective.agreements,
      (statusRequiresEffectiveAt a.status = true ↔ a.effectiveAt ≠ none)) ∧
    (∃ a, findAgreement dbContact.agreements 100 = some a ∧
      (5 : Nat) = a.effectiveAt.getD 5 ∧
      findAgreement dbMarked.agreements 100 =
        some { a with status := AgStatus.effective,
                      effectiveAt := some (a.effectiveAt.getD 5) }) := by
  constructor
  · exact C6_state_time_consistency.1 dbEffective reachable_dbEffective
  · exact C6_state_time_consistency.2 dbContact 100 5 (5, 10, 11, dbMarked) rfl

/-- **C7** — WORM timeline (I4): UPDATE and DELETE on `timeline_events`
are rejected unconditionally; in every reachable state, for every
agreement, the committed `seq` values of its events, in insertion order,
are exactly `1, 2, ..., event_seq`; and every successful triggered insert
takes its `seq` from the per-agreement `event_seq` counter
(`event_seq + 1`, bumping the counter), never from `MAX(seq)+1`. -/
theorem C7_worm_timeline :
    (∀ (db : DB) (i : Nat) (g : TimelineEvent → TimelineEvent),
      updateTimelineEvent db i g = Except.error DBErr.timelineImmutable) ∧
    (∀ (db : DB) (i : Nat),
      deleteTimelineEvent db i = Except.error DBErr.timelineImmutable) ∧
    (∀ db : DB, Reachable db → ∀ a ∈ db.agreements,
      (db.events.filter (fun e => e.agreementId == a.id)).map TimelineEvent.seq =
        seqList a.eventSeq) ∧
    (∀ (db : DB) (agId : Nat) (ty : EvType) (actor bctx : Option Nat) (now s : Nat)
      (db' : DB),
      insertTimelineEventChecked db agId ty actor bctx now = Except.ok (s, db') →
      ∃ a b, findAgreement db.agreements agId = some a ∧ bctx = some b ∧
        s = a.eventSeq + 1 ∧
        (∃ a', findAgreement db'.agreements agId = some a' ∧
          a'.eventSeq = a.eventSeq + 1) ∧
        db'.events = db.events ++ [mkEvent agId (a.eventSeq + 1) ty actor b now]) := by
  refine ⟨fun _ _ _ => rfl, fun _ _ => rfl, ?_, ?_⟩
  · intro db hr a ha
    exact (reachable_inv hr).seqOK a ha
  · intro db agId ty actor bctx now s db' h
    obtain ⟨a, b, hf, hb, hs, hdb, -, -⟩ := insertTimelineEventChecked_ok h
    have hpa : ((a.id == agId) : Bool) = true := by
      simpa using (findAgreement_mem hf).2
    refine ⟨a, b, hf, hb, hs, ⟨bump a, ?_, rfl⟩, ?_⟩
    · rw [hdb]
      exact findAgreement_mapWhere_hit hf (fun x => rfl) hpa
    · rw [hdb]

/-- Witness for C7 on the concrete effective agreement (two committed
events, seqs `[1, 2]`) and a successful `OFFER_MADE` insert. -/
theorem C7_worm_timeline_witness :
    updateTimelineEvent dbEffective 1 id = Except.error DBErr.timelineImmutable ∧
    deleteTimelineEvent dbEffective 1 = Except.error DBErr.timelineImmutable ∧
    (∀ a ∈ dbEffective.agreements,
      (dbEffective.events.filter (fun e => e.agreementId == a.id)).map TimelineEvent.seq =
        seqList a.eventSeq) ∧
    (∃ a b, findAgreement dbEffective.agreements 100 = some a ∧
      (some 10 : Option Nat) = some b ∧
      (3 : Nat) = a.eventSeq + 1 ∧
      (∃ a', findAgreement dbOffer.agreements 100 = some a' ∧
        a'.eventSeq = a.eventSeq + 1) ∧
      dbOffer.events =
        dbEffective.events ++ [mkEvent 100 (a.eventSeq + 1) EvType.OFFER_MADE none b 6]) := by
  refine ⟨C7_worm_timeline.1 dbEffective 1 id, C7_worm_timeline.2.1 dbEffective 1,
    C7_worm_timeline.2.2.1 dbEffective reachable_dbEffective, ?_⟩
  exact C7_worm_timeline.2.2.2 dbEffective 100 EvType.OFFER_MADE none (some 10) 6 3 dbOffer rfl

/-- **C9 (counterexample)** — the claim demands `ts` strictly greater
than `effective_at`, but the gate only enforces
`get_tx_timestamp() >= effective_at`: in the reachable state below a
gated read whose transaction timestamp equals `effective_at` committed a
`PII_READ` audit row with `ts = effective_at`. -/
theorem C9_counterexample :
    Reachable dbPiiRead ∧
    ∃ u ∈ dbPiiRead.audits, u.action = "PII_READ" ∧
      ∃ a ∈ dbPiiRead.agreements, u.agreementId = a.id ∧ a.effectiveAt = some u.ts :=
  ⟨reachable_dbPiiRead, by decide⟩

/-- **C9 (amended)** — strict PII audit ordering weakened to non-strict:
in every reachable state, every `PII_READ` audit row has
`ts >= effective_at` of its parent agreement (which has a non-null
`effective_at`). -/
theorem C9_pii_audit_ordering :
    ∀ db : DB, Reachable db → ∀ u ∈ db.audits, u.action = "PII_READ" →
      ∃ a ∈ db.agreements, u.agreementId = a.id ∧
        ∃ t, a.effectiveAt = some t ∧ t ≤ u.ts := by
  intro db hr u hu hact
  exact (reachable_inv hr).auditOK u hu hact

/-- Witness for the amended C9 at the concrete audit row. -/
theorem C9_pii_audit_ordering_witness :
    ∃ a ∈ dbPiiRead.agreements,
      ({ agreementId := 100, actorId := some 1, action := "PII_READ", ts := 5 } :
          AuditLog).agreementId = a.id ∧
      ∃ t, a.effectiveAt = some t ∧ t ≤ 5 :=
  C9_pii_audit_ordering dbPiiRead reachable_dbPiiRead _ (by decide) (by decide)

/-- **C4 (code bug evaluation)** — match-accept replay: the first
`UpdateState(accepted)` call on the invited match returns the freshly
created agreement, but the second call short-circuits on
`match.State == NewState` and returns success with **no** agreement
(`MatchUpdateResult.agreement = nil`), leaving the
"return existing agreement" branch of `acceptMatchAndCreateAgreement`
unreachable, contrary to the claim (and to the repository's own
integration test, which requires the same agreement id on replay). -/
theorem C4_match_accept_replay_returns_no_agreement :
    (acceptedAgreementOf (matchUpdateState dbSeed 4 2 MState.accepted 5)).isSome = true ∧
    afterP (matchUpdateState dbSeed 4 2 MState.accepted 5) = some dbAccepted ∧
    acceptedAgreementOf (matchUpdateState dbAccepted 4 2 MState.accepted 6) = none ∧
    afterP (matchUpdateState dbAccepted 4 2 MState.accepted 6) = some dbAccepted := by
  refine ⟨?_, ?_, ?_, ?_⟩ <;> decide

/-- **C1** — Single Active Agreement (I1): (i) in every reachable state
each referral request has at most one agreement in
`{pending_signature, effective}`; (ii) a `CreateFromMatch` that finds an
existing active agreement for the request commits nothing and returns
that agreement; (iii) a raw concurrent insert of a second active row for
the same referral is rejected by the partial unique index with a
unique-violation error. -/
theorem C1_single_active_agreement :
    (∀ db : DB, Reachable db → ∀ r : Nat,
      (db.agreements.filter (fun a => a.referralId == r && isActive a)).length ≤ 1) ∧
    (∀ (db : DB) (matchId requestId candidateUserId acceptedBy now : Nat)
      (ex : Agreement),
      findActiveAgreement db.agreements requestId = some ex →
      ∀ r : AgreementRecord × DB,
        createFromMatch db matchId requestId candidateUserId acceptedBy now =
          Except.ok r →
        r.1 = recordOf ex ∧ r.2 = db) ∧
    (∀ (db : DB) (rid fb tb now : Nat), Reachable db →
      (∃ a ∈ db.agreements, a.referralId = rid ∧ isActive a = true) →
      creatorInsertAgreement db rid fb tb now =
        Except.error DBErr.uniqueViolation) := by
  refine ⟨?_, ?_, ?_⟩
  · intro db hr r
    exact uniqueActiveB_length (checks_split (reachable_inv hr).checksOK).2 r
  · intro db matchId requestId candidateUserId acceptedBy now ex hex r h
    unfold createFromMatch at h
    cases hm : db.matchRows.find? (fun m => m.id == matchId) with
    | none => rw [hm] at h; cases h
    | some m =>
      simp only [hm] at h
      by_cases h1 : (m.requestId == requestId) = false
      · rw [if_pos h1] at h; cases h
      · rw [if_neg h1] at h
        by_cases h2 : (m.candidateUserId == candidateUserId) = false
        · rw [if_pos h2] at h; cases h
        · rw [if_neg h2] at h
          by_cases h3 : (m.state == MState.accepted) = false
          · rw [if_pos h3] at h; cases h
          · rw [if_neg h3] at h
            cases hrr : db.requests.find? (fun x => x.id == requestId) with
            | none => rw [hrr] at h; cases h
            | some rr =>
              simp only [hrr] at h
              cases ho : db.users.find? (fun u => u.id == rr.createdByUserId) with
              | none =>
                cases hc : db.users.find? (fun u => u.id == candidateUserId) with
                | none => simp only [ho, hc] at h; cases h
                | some cand => simp only [ho, hc] at h; cases h
              | some owner =>
                cases hc : db.users.find? (fun u => u.id == candidateUserId) with
                | none => simp only [ho, hc] at h; cases h
                | some cand =>
                  simp only [ho, hc] at h
                  cases hob : owner.brokerId with
                  | none => simp only [hob] at h; cases h
                  | some ob =>
                    simp only [hob] at h
                    cases hcb : cand.brokerId with
                    | none => simp only [hcb] at h; cases h
                    | some cb =>
                      simp only [hcb] at h
                      simp only [hex] at h
                      cases h
                      exact ⟨rfl, rfl⟩
  · intro db rid fb tb now hr hex
    have hchk := checks_split (reachable_inv hr).checksOK
    have h1 : ((db.agreements ++
        [({ id := db.nextId, referralId := rid, fromBrokerId := some fb,
            toBrokerId := some tb, status := AgStatus.pending_signature,
            effectiveAt := none, piiFirstAccessTime := none, eventSeq := 0,
            feeRate := 0, protectDays := 0, statusUpdatedAt := now,
            statusUpdatedBy := none, updatedAt := now } : Agreement)]).all
        chkEffectiveAtPair) = true := by
      rw [List.all_append, hchk.1]
      rfl
    have h2 : uniqueActiveB (db.agreements ++
        [({ id := db.nextId, referralId := rid, fromBrokerId := some fb,
            toBrokerId := some tb, status := AgStatus.pending_signature,
            effectiveAt := none, piiFirstAccessTime := none, eventSeq := 0,
            feeRate := 0, protectDays := 0, statusUpdatedAt := now,
            statusUpdatedBy := none, updatedAt := now } : Agreement)]) = false := by
      refine uniqueActiveB_append_conflict rfl ?_
      obtain ⟨b, hb, hbr, hba⟩ := hex
      exact ⟨b, hb, hbr, hba⟩
    simp only [creatorInsertAgreement, insertAgreementChecked]
    rw [if_neg (by simp [h1]), if_pos h2]

/-- Witness for C1 on the accepted match state: one active row for
referral 3, the `CreateFromMatch` replay returns it unchanged, and the
stress `Creator` insert aborts with the unique violation. -/
theorem C1_single_active_agreement_witness :
    ((dbAccepted.agreements.filter
        (fun a => a.referralId == 3 && isActive a)).length ≤ 1) ∧
    ((recordOf agAcc, dbAccepted).1 = recordOf agAcc ∧
      (recordOf agAcc, dbAccepted).2 = dbAccepted) ∧
    creatorInsertAgreement dbAccepted 3 12 13 7 =
      Except.error DBErr.uniqueViolation := by
  refine ⟨C1_single_active_agreement.1 dbAccepted reachable_dbAccepted 3,
    C1_single_active_agreement.2.1 dbAccepted 4 3 2 2 6 agAcc (by decide)
      (recordOf agAcc, dbAccepted) rfl,
    C1_single_active_agreement.2.2 dbAccepted 3 12 13 7 reachable_dbAccepted
      ⟨agAcc, by decide, rfl, rfl⟩⟩

/-- **C5** — PII gate (I6): in a reachable state `get_pii_contact`
commits exactly when the agreement exists, is `effective` and
`get_tx_timestamp() >= effective_at`; a successful read stamps
`pii_first_access_time` exactly when it was null (later reads keep the
first stamp), appends exactly one `PII_READ` audit row, returns only the
`(client_name, client_phone, client_email)` projection, and touches no
timeline event or outbox row. -/
theorem C5_pii_gate :
    ∀ (db : DB) (agId actor now : Nat), Reachable db →
      ((txOk (getPiiContact db agId actor now) = true) ↔
        (∃ a, findAgreement db.agreements agId = some a ∧
          a.status = AgStatus.effective ∧
          ∃ t, a.effectiveAt = some t ∧ t ≤ now)) ∧
      (∀ r : List Contact × DB, getPiiContact db agId actor now = Except.ok r →
        ∃ a, findAgreement db.agreements agId = some a ∧
          findAgreement r.2.agreements agId =
            some { a with piiFirstAccessTime := some (a.piiFirstAccessTime.getD now) } ∧
          r.2.audits = db.audits ++
            [{ agreementId := agId, actorId := some actor, action := "PII_READ",
               ts := now }] ∧
          r.1 = (db.piiContacts.filter (fun c => c.agreementId == agId)).map
            (fun c => { clientName := c.clientName, clientPhone := c.clientPhone,
                        clientEmail := c.clientEmail }) ∧
          r.2.events = db.events ∧ r.2.outbox = db.outbox) := by
  intro db agId actor now hr
  have hchk := checks_split (reachable_inv hr).checksOK
  have h1 : ((mapWhere (fun x => x.id == agId && x.piiFirstAccessTime.isNone)
      (piiTouchF now) db.agreements).all chkEffectiveAtPair) = true := by
    refine all_map_of ?_
    intro x hx
    show chkEffectiveAtPair
      (if ((x.id == agId && x.piiFirstAccessTime.isNone) : Bool) = true
       then piiTouchF now x else x) = true
    have hcx := (List.all_eq_true.mp hchk.1) x hx
    by_cases hp : ((x.id == agId && x.piiFirstAccessTime.isNone) : Bool) = true
    · rw [if_pos hp]; exact hcx
    · rw [if_neg hp]; exact hcx
  have h2 : uniqueActiveB (mapWhere
      (fun x => x.id == agId && x.piiFirstAccessTime.isNone)
      (piiTouchF now) db.agreements) = true := by
    refine uniqueActiveB_map_preserve (fun x => ?_) (fun x => ?_) hchk.2
    · show (if ((x.id == agId && x.piiFirstAccessTime.isNone) : Bool) = true
          then piiTouchF now x else x).status = x.status
      by_cases hp : ((x.id == agId && x.piiFirstAccessTime.isNone) : Bool) = true
      · rw [if_pos hp]; rfl
      · rw [if_neg hp]
    · show (if ((x.id == agId && x.piiFirstAccessTime.isNone) : Bool) = true
          then piiTouchF now x else x).referralId = x.referralId
      by_cases hp : ((x.id == agId && x.piiFirstAccessTime.isNone) : Bool) = true
      · rw [if_pos hp]; rfl
      · rw [if_neg hp]
  have hupd : updateAgreementsWhere db
      (fun x => x.id == agId && x.piiFirstAccessTime.isNone) (piiTouchF now) =
      Except.ok { db with agreements := mapWhere (fun x => x.id == agId && x.piiFirstAccessTime.isNone) (piiTouchF now) db.agreements } := by
    simp only [updateAgreementsWhere]
    rw [if_neg (by simp [h1]), if_neg (by simp [h2])]
  refine ⟨⟨?_, ?_⟩, ?_⟩
  · intro hok
    unfold getPiiContact at hok
    cases hfa : findAgreement db.agreements agId with
    | none => rw [hfa] at hok; simp [txOk] at hok
    | some a =>
      simp only [hfa] at hok
      by_cases hst : (a.status == AgStatus.effective) = false
      · rw [if_pos hst] at hok; simp [txOk] at hok
      · rw [if_neg hst] at hok
        cases heff : a.effectiveAt with
        | none => simp only [heff] at hok; simp [txOk] at hok
        | some t =>
          simp only [heff] at hok
          by_cases hlt : now < t
          · rw [if_pos hlt] at hok; simp [txOk] at hok
          · refine ⟨a, rfl, ?_, t, heff, Nat.le_of_not_lt hlt⟩
            have := bool_true_of_not_false hst
            simpa using this
  · rintro ⟨a, hfa, hst, t, heff, hle⟩
    unfold getPiiContact
    simp only [hfa]
    rw [if_neg (by simp [hst])]
    simp only [heff]
    rw [if_neg (Nat.not_lt.mpr hle)]
    simp only [hupd]
    rfl
  · intro r h
    unfold getPiiContact at h
    cases hfa : findAgreement db.agreements agId with
    | none => rw [hfa] at h; cases h
    | some a =>
      simp only [hfa] at h
      by_cases hst : (a.status == AgStatus.effective) = false
      · rw [if_pos hst] at h; cases h
      · rw [if_neg hst] at h
        cases heff : a.effectiveAt with
        | none => simp only [heff] at h; cases h
        | some t =>
          simp only [heff] at h
          by_cases hlt : now < t
          · rw [if_pos hlt] at h; cases h
          · rw [if_neg hlt] at h
            simp only [hupd] at h
            cases h
            have hpa : ((a.id == agId) : Bool) = true := by
              simpa using (findAgreement_mem hfa).2
            refine ⟨a, rfl, ?_, rfl, rfl, rfl, rfl⟩
            show findAgreement (mapWhere
              (fun x => x.id == agId && x.piiFirstAccessTime.isNone)
              (piiTouchF now) db.agreements) agId = _
            rw [findAgreement_mapWhere (f := piiTouchF now) (fun x => rfl), hfa]
            cases hpn : a.piiFirstAccessTime with
            | none =>
              have hp : ((a.id == agId && a.piiFirstAccessTime.isNone) : Bool)
                  = true := by simp [hpa, hpn]
              simp only [Option.map]
              rw [if_pos hp]
              simp [piiTouchF, hpn]
            | some t0 =>
              have hp : ((a.id == agId && a.piiFirstAccessTime.isNone) : Bool)
                  = false := by simp [hpn]
              simp only [Option.map]
              rw [if_neg (by rw [hp]; exact Bool.false_ne_true)]
              rw [Option.getD_some, ← hpn]

/-- Witness for C5 on the effective agreement read at
`tx_now() = effective_at = 5`. -/
theorem C5_pii_gate_witness :
    ((txOk (getPiiContact dbEffective 100 1 5) = true) ↔
      (∃ a, findAgreement dbEffective.agreements 100 = some a ∧
        a.status = AgStatus.effective ∧
        ∃ t, a.effectiveAt = some t ∧ t ≤ 5)) ∧
    (∃ a, findAgreement dbEffective.agreements 100 = some a ∧
      findAgreement dbPiiRead.agreements 100 =
        some { a with piiFirstAccessTime := some (a.piiFirstAccessTime.getD 5) } ∧
      dbPiiRead.audits = dbEffective.audits ++
        [{ agreementId := 100, actorId := some 1, action := "PII_READ", ts := 5 }] ∧
      csPii = (dbEffective.piiContacts.filter (fun c => c.agreementId == 100)).map
        (fun c => { clientName := c.clientName, clientPhone := c.clientPhone,
                    clientEmail := c.clientEmail }) ∧
      dbPiiRead.events = dbEffective.events ∧
      dbPiiRead.outbox = dbEffective.outbox) := by
  have h := C5_pii_gate dbEffective 100 1 5 reachable_dbEffective
  exact ⟨h.1, h.2 (csPii, dbPiiRead) rfl⟩

end BrokerFlow
